import Mathlib

/-!
# Verification of the logistic-regression aggregate core (logistic.cpp)

A shallow embedding of `src/madlib/src/modules/regress/logistic.cpp`.
Doubles are modelled as real numbers; the fixed-size numeric buffers are
modelled as Lean structures whose vector and matrix fields are total
functions `ℕ → ℝ` (resp. `ℕ → ℕ → ℝ`); the C++ buffer holds their first
`widthOfX` entries and all element-wise Eigen operations are modelled
pointwise.  External collaborators (the pseudo-inverse, condition number,
normal CDF and Student-t CDF of the linear-algebra and probability
libraries) are passed as explicit function parameters, as the design
treats them as outside the core.  A thrown `std::logic_error` is modelled
by `Option.none`; a returned `Null()` likewise.
-/

namespace Logistic

/-- Status value `IN_PROCESS` from the `enum { IN_PROCESS, COMPLETED, TERMINATED}`. -/
def IN_PROCESS : ℕ := 0

/-- Status value `COMPLETED` from the enum (never assigned anywhere in the file). -/
def COMPLETED : ℕ := 1

/-- Status value `TERMINATED` from the enum. -/
def TERMINATED : ℕ := 2

/-- `double y = args[1].getAs<bool>() ? 1. : -1.;` -/
def yOf (label : Bool) : ℝ := if label then 1 else -1

/-- Eigen `dot(a, b)` for two mapped vectors of length `w`. -/
def dotW (w : ℕ) (a b : ℕ → ℝ) : ℝ := ∑ i in Finset.range w, a i * b i

/-- Eigen matrix product of two `w × w` matrices. -/
def matMulW (w : ℕ) (M N : ℕ → ℕ → ℝ) : ℕ → ℕ → ℝ :=
  fun i j => ∑ k in Finset.range w, M i k * N k j

/-- Eigen `as_scalar(trans(v) * M * v)` for a `w`-vector `v` and `w × w` matrix `M`. -/
def quadFormW (w : ℕ) (v : ℕ → ℝ) (M : ℕ → ℕ → ℝ) : ℝ :=
  ∑ i in Finset.range w, ∑ j in Finset.range w, v i * M i j * v j

/-- `inline double sigma(double x) { return 1. / (1. + std::exp(-x)); }` -/
noncomputable def sigma (x : ℝ) : ℝ := 1 / (1 + Real.exp (-x))

/-- `std::numeric_limits<double>::denorm_min()`, the smallest positive
subnormal double, `2 ^ (-1074)`. -/
noncomputable def denormMin : ℝ := ((2 : ℝ) ^ (1074 : ℕ))⁻¹

/-! ## Conjugate-gradient transition state (`LogRegrCGTransitionState`) -/

/-- The CG transition state.  Field order follows the array layout documented
in `LogRegrCGTransitionState::rebind`: iteration, widthOfX, coef, dir, grad,
beta (inter-iteration), then numRows, gradNew, X_transp_AX, logLikelihood,
status (intra-iteration). -/
structure LogRegrCGTransitionState where
  iteration : ℕ
  widthOfX : ℕ
  coef : ℕ → ℝ
  dir : ℕ → ℝ
  grad : ℕ → ℝ
  beta : ℝ
  numRows : ℕ
  gradNew : ℕ → ℝ
  X_transp_AX : ℕ → ℕ → ℝ
  logLikelihood : ℝ
  status : ℕ

/-- `LogRegrCGTransitionState::initialize`: a zero-filled buffer sized for
`inWidthOfX` (the allocator zero-initializes; `widthOfX` is then set). -/
def cgInitialize (w : ℕ) : LogRegrCGTransitionState :=
  ⟨0, w, fun _ => 0, fun _ => 0, fun _ => 0, 0, 0, fun _ => 0, fun _ _ => 0, 0, IN_PROCESS⟩

/-- The database-initialized CG state (all elements 0) before any row is seen. -/
def cgInitialState : LogRegrCGTransitionState := cgInitialize 0

/-- `LogRegrCGTransitionState::reset`: zero the intra-iteration fields. -/
def cgReset (s : LogRegrCGTransitionState) : LogRegrCGTransitionState :=
  { s with
    numRows := 0
    X_transp_AX := fun _ _ => 0
    gradNew := fun _ => 0
    logLikelihood := 0
    status := IN_PROCESS }

/-- `LogRegrCGTransitionState::operator+=`: add the intra-iteration
accumulators and take the higher status.  The incompatible-shape throw is
modelled in the merge wrapper `logregr_cg_step_merge_states`. -/
def cgPlusEq (l r : LogRegrCGTransitionState) : LogRegrCGTransitionState :=
  { l with
    numRows := l.numRows + r.numRows
    gradNew := fun i => l.gradNew i + r.gradNew i
    X_transp_AX := fun i j => l.X_transp_AX i j + r.X_transp_AX i j
    logLikelihood := l.logLikelihood + r.logLikelihood
    status := max l.status r.status }

/-- `logregr_cg_step_merge_states::run`.  `none` models the
`std::logic_error` thrown by `operator+=` on incompatible shapes (the
buffer size is determined by `widthOfX`, so only the width is compared). -/
def logregr_cg_step_merge_states (l r : LogRegrCGTransitionState) :
    Option LogRegrCGTransitionState :=
  if l.numRows = 0 then some r
  else if r.numRows = 0 then some l
  else if l.widthOfX = r.widthOfX then some (cgPlusEq l r) else none

/-- The accumulation part of `logregr_cg_step_transition::run` (everything
after the `state.numRows == 0` initialization block). -/
noncomputable def cgTransitionStep (s : LogRegrCGTransitionState) (label : Bool)
    (x : ℕ → ℝ) : LogRegrCGTransitionState :=
  let y := yOf label
  let xc := dotW s.widthOfX x s.coef
  { s with
    numRows := s.numRows + 1
    gradNew := fun i => s.gradNew i + sigma (-y * xc) * y * x i
    X_transp_AX := fun i j => s.X_transp_AX i j + x i * x j * (sigma xc * sigma (-xc))
    logLikelihood := s.logLikelihood - Real.log (1 + Real.exp (-y * xc)) }

/-- `logregr_cg_step_transition::run`.  `xlen` is `x.size()`; `prev` is
`args[3]` (the previous iteration's state, NULL on the first iteration). -/
noncomputable def logregr_cg_step_transition (s : LogRegrCGTransitionState)
    (label : Bool) (x : ℕ → ℝ) (xlen : ℕ)
    (prev : Option LogRegrCGTransitionState) : LogRegrCGTransitionState :=
  if s.numRows = 0 then
    if 65535 < xlen then { s with status := TERMINATED }
    else
      match prev with
      | none => cgTransitionStep (cgInitialize xlen) label x
      | some p => cgTransitionStep (cgReset p) label x
  else cgTransitionStep s label x

/-- `logregr_cg_step_final::run`.  `none` models the `Null()` returned for
aggregates that have seen no data. -/
noncomputable def logregr_cg_step_final (s : LogRegrCGTransitionState) :
    Option LogRegrCGTransitionState :=
  if s.numRows = 0 then none
  else
    let s1 :=
      if s.iteration = 0 then { s with dir := s.gradNew, grad := s.gradNew }
      else
        let dg := fun i => s.gradNew i - s.grad i
        let betaHS := dotW s.widthOfX s.gradNew dg / dotW s.widthOfX s.dir dg
        let b := if dotW s.widthOfX s.gradNew dg / dotW s.widthOfX s.grad s.grad ≤ denormMin
          then 0 else betaHS
        { s with beta := b, dir := fun i => s.gradNew i - b * s.dir i, grad := s.gradNew }
    some { s1 with
      coef := fun i => s1.coef i +
        dotW s1.widthOfX s1.grad s1.dir / quadFormW s1.widthOfX s1.dir s1.X_transp_AX
        * s1.dir i
      iteration := s1.iteration + 1 }

/-- The tuple built by `stateToResult` (coefficients and diagnostics). -/
structure LogRegrResultTuple where
  coef : ℕ → ℝ
  logLikelihood : ℝ
  stdErr : ℕ → ℝ
  waldZStats : ℕ → ℝ
  waldPValues : ℕ → ℝ
  oddsRatios : ℕ → ℝ
  conditionNo : ℝ
  status : ℕ

/-- `stateToResult`: per-coefficient standard errors, Wald statistics,
two-sided p-values and odds ratios.  `Phi` is the external standard normal
CDF `prob::cdf(prob::normal(), ·)`. -/
noncomputable def stateToResult (Phi : ℝ → ℝ) (inCoef : ℕ → ℝ) (diag : ℕ → ℝ)
    (logLikelihood conditionNo : ℝ) (status : ℕ) : LogRegrResultTuple :=
  { coef := inCoef
    logLikelihood := logLikelihood
    stdErr := fun i => Real.sqrt (diag i)
    waldZStats := fun i => inCoef i / Real.sqrt (diag i)
    waldPValues := fun i => 2 * Phi (-|inCoef i / Real.sqrt (diag i)|)
    oddsRatios := fun i => Real.exp (inCoef i)
    conditionNo := conditionNo
    status := status }

/-- `internal_logregr_cg_result::run`.  `pinvDiag` and `condNo` model the
external eigendecomposition (diagonal of the pseudo-inverse and condition
number of `X_transp_AX`).  Note: there is no `numRows` check here; a tuple
is returned unconditionally. -/
noncomputable def internal_logregr_cg_result
    (pinvDiag : (ℕ → ℕ → ℝ) → (ℕ → ℝ)) (condNo : (ℕ → ℕ → ℝ) → ℝ) (Phi : ℝ → ℝ)
    (s : LogRegrCGTransitionState) : Option LogRegrResultTuple :=
  some (stateToResult Phi s.coef (pinvDiag s.X_transp_AX) s.logLikelihood
    (condNo s.X_transp_AX) s.status)

/-! ## IRLS transition state (`LogRegrIRLSTransitionState`) -/

/-- The IRLS transition state.  Layout from `LogRegrIRLSTransitionState::rebind`:
widthOfX, coef (inter-iteration); numRows, X_transp_Az, X_transp_AX,
logLikelihood, status (intra-iteration). -/
structure LogRegrIRLSTransitionState where
  widthOfX : ℕ
  coef : ℕ → ℝ
  numRows : ℕ
  X_transp_Az : ℕ → ℝ
  X_transp_AX : ℕ → ℕ → ℝ
  logLikelihood : ℝ
  status : ℕ

/-- `LogRegrIRLSTransitionState::initialize`: zero-filled, sized for `w`. -/
def irlsInitialize (w : ℕ) : LogRegrIRLSTransitionState :=
  ⟨w, fun _ => 0, 0, fun _ => 0, fun _ _ => 0, 0, IN_PROCESS⟩

/-- The database-initialized IRLS state before any row is seen. -/
def irlsInitialState : LogRegrIRLSTransitionState := irlsInitialize 0

/-- `LogRegrIRLSTransitionState::reset`. -/
def irlsReset (s : LogRegrIRLSTransitionState) : LogRegrIRLSTransitionState :=
  { s with
    numRows := 0
    X_transp_Az := fun _ => 0
    X_transp_AX := fun _ _ => 0
    logLikelihood := 0
    status := IN_PROCESS }

/-- `LogRegrIRLSTransitionState::operator+=`. -/
def irlsPlusEq (l r : LogRegrIRLSTransitionState) : LogRegrIRLSTransitionState :=
  { l with
    numRows := l.numRows + r.numRows
    X_transp_Az := fun i => l.X_transp_Az i + r.X_transp_Az i
    X_transp_AX := fun i j => l.X_transp_AX i j + r.X_transp_AX i j
    logLikelihood := l.logLikelihood + r.logLikelihood
    status := max l.status r.status }

/-- `logregr_irls_step_merge_states::run`. -/
def logregr_irls_step_merge_states (l r : LogRegrIRLSTransitionState) :
    Option LogRegrIRLSTransitionState :=
  if l.numRows = 0 then some r
  else if r.numRows = 0 then some l
  else if l.widthOfX = r.widthOfX then some (irlsPlusEq l r) else none

/-- The accumulation part of `logregr_irls_step_transition::run`. -/
noncomputable def irlsTransitionStep (s : LogRegrIRLSTransitionState) (label : Bool)
    (x : ℕ → ℝ) : LogRegrIRLSTransitionState :=
  let y := yOf label
  let xc := dotW s.widthOfX x s.coef
  let a := sigma xc * sigma (-xc)
  let az := xc * a + sigma (-y * xc) * y
  { s with
    numRows := s.numRows + 1
    X_transp_Az := fun i => s.X_transp_Az i + x i * az
    X_transp_AX := fun i j => s.X_transp_AX i j + x i * x j * a
    logLikelihood := s.logLikelihood - Real.log (1 + Real.exp (-y * xc)) }

/-- `logregr_irls_step_transition::run`. -/
noncomputable def logregr_irls_step_transition (s : LogRegrIRLSTransitionState)
    (label : Bool) (x : ℕ → ℝ) (xlen : ℕ)
    (prev : Option LogRegrIRLSTransitionState) : LogRegrIRLSTransitionState :=
  if s.numRows = 0 then
    if 65535 < xlen then { s with status := TERMINATED }
    else
      match prev with
      | none => irlsTransitionStep (irlsInitialize xlen) label x
      | some p => irlsTransitionStep (irlsReset p) label x
  else irlsTransitionStep s label x

/-- `logregr_irls_step_final::run`: the Newton step
`coef = pseudoInverse(X_transp_AX) * X_transp_Az`, stashing the
pseudo-inverse diagonal in `X_transp_Az` and the condition number in
`X_transp_AX(0,0)`.  `pinv` and `condNo` model the external
eigendecomposition. -/
noncomputable def logregr_irls_step_final
    (pinv : (ℕ → ℕ → ℝ) → (ℕ → ℕ → ℝ)) (condNo : (ℕ → ℕ → ℝ) → ℝ)
    (s : LogRegrIRLSTransitionState) : Option LogRegrIRLSTransitionState :=
  if s.numRows = 0 then none
  else
    let inv := pinv s.X_transp_AX
    some { s with
      coef := fun i => ∑ j in Finset.range s.widthOfX, inv i j * s.X_transp_Az j
      X_transp_Az := fun i => inv i i
      X_transp_AX := fun i j =>
        if i = 0 ∧ j = 0 then condNo s.X_transp_AX else s.X_transp_AX i j }

/-- `internal_logregr_irls_result::run`: no `numRows` check, returns the
tuple unconditionally (using the stashed diagonal and condition number). -/
noncomputable def internal_logregr_irls_result (Phi : ℝ → ℝ)
    (s : LogRegrIRLSTransitionState) : Option LogRegrResultTuple :=
  some (stateToResult Phi s.coef s.X_transp_Az s.logLikelihood
    (s.X_transp_AX 0 0) s.status)

/-! ## Incremental-gradient transition state (`LogRegrIGDTransitionState`) -/

/-- The IGD transition state.  Layout from `LogRegrIGDTransitionState::rebind`:
widthOfX, stepsize, coef (inter-iteration); numRows, X_transp_AX,
logLikelihood, status (intra-iteration). -/
structure LogRegrIGDTransitionState where
  widthOfX : ℕ
  stepsize : ℝ
  coef : ℕ → ℝ
  numRows : ℕ
  X_transp_AX : ℕ → ℕ → ℝ
  logLikelihood : ℝ
  status : ℕ

/-- `LogRegrIGDTransitionState::initialize`: zero-filled, sized for `w`. -/
def igdInitialize (w : ℕ) : LogRegrIGDTransitionState :=
  ⟨w, 0, fun _ => 0, 0, fun _ _ => 0, 0, IN_PROCESS⟩

/-- The database-initialized IGD state before any row is seen. -/
def igdInitialState : LogRegrIGDTransitionState := igdInitialize 0

/-- `LogRegrIGDTransitionState::reset`: hard-codes `stepsize = .01` and
zeroes the intra-iteration fields. -/
noncomputable def igdReset (s : LogRegrIGDTransitionState) : LogRegrIGDTransitionState :=
  { s with
    stepsize := 0.01
    numRows := 0
    X_transp_AX := fun _ _ => 0
    logLikelihood := 0
    status := IN_PROCESS }

/-- `LogRegrIGDTransitionState::operator+=`: the coefficient merge is the
row-count-weighted average using the pre-merge row counts; `numRows`,
`X_transp_AX` and `logLikelihood` are added; the status becomes the right
status only when the right status is TERMINATED. -/
noncomputable def igdPlusEq (l r : LogRegrIGDTransitionState) : LogRegrIGDTransitionState :=
  let totalNumRows : ℝ := (l.numRows : ℝ) + (r.numRows : ℝ)
  { l with
    coef := fun i => (l.numRows : ℝ) / totalNumRows * l.coef i
      + (r.numRows : ℝ) / totalNumRows * r.coef i
    numRows := l.numRows + r.numRows
    X_transp_AX := fun i j => l.X_transp_AX i j + r.X_transp_AX i j
    logLikelihood := l.logLikelihood + r.logLikelihood
    status := if r.status = TERMINATED then r.status else l.status }

/-- `logregr_igd_step_merge_states::run`. -/
noncomputable def logregr_igd_step_merge_states (l r : LogRegrIGDTransitionState) :
    Option LogRegrIGDTransitionState :=
  if l.numRows = 0 then some r
  else if r.numRows = 0 then some l
  else if l.widthOfX = r.widthOfX then some (igdPlusEq l r) else none

/-- The accumulation part of `logregr_igd_step_transition::run`: only
`numRows` and the immediate gradient update of `coef` — the `X_transp_AX`
and `logLikelihood` updates in the source are compiled out (`#if 0`). -/
noncomputable def igdTransitionStep (s : LogRegrIGDTransitionState) (label : Bool)
    (x : ℕ → ℝ) : LogRegrIGDTransitionState :=
  let y := yOf label
  let xc := dotW s.widthOfX x s.coef
  let scale := s.stepsize * sigma (-xc * y) * y
  { s with
    numRows := s.numRows + 1
    coef := fun i => s.coef i + scale * x i }

/-- The state built for the very first IGD transition when the
previous-state argument is NULL: `initialize`, `reset`, then every
component of `coef` (indices below `coef.size() = w`) is set to `0.1`. -/
noncomputable def igdFirstState (w : ℕ) : LogRegrIGDTransitionState :=
  { igdReset (igdInitialize w) with coef := fun i => if i < w then 0.1 else 0 }

/-- `logregr_igd_step_transition::run`. -/
noncomputable def logregr_igd_step_transition (s : LogRegrIGDTransitionState)
    (label : Bool) (x : ℕ → ℝ) (xlen : ℕ)
    (prev : Option LogRegrIGDTransitionState) : LogRegrIGDTransitionState :=
  if s.numRows = 0 then
    if 65535 < xlen then { s with status := TERMINATED }
    else
      match prev with
      | none => igdTransitionStep (igdFirstState xlen) label x
      | some p => igdTransitionStep (igdReset p) label x
  else igdTransitionStep s label x

/-- `logregr_igd_step_final::run`: pass-through apart from the no-data check. -/
def logregr_igd_step_final (s : LogRegrIGDTransitionState) :
    Option LogRegrIGDTransitionState :=
  if s.numRows = 0 then none else some s

/-- `internal_logregr_igd_result::run`: no `numRows` check, returns the
tuple unconditionally. -/
noncomputable def internal_logregr_igd_result
    (pinvDiag : (ℕ → ℕ → ℝ) → (ℕ → ℝ)) (condNo : (ℕ → ℕ → ℝ) → ℝ) (Phi : ℝ → ℝ)
    (s : LogRegrIGDTransitionState) : Option LogRegrResultTuple :=
  some (stateToResult Phi s.coef (pinvDiag s.X_transp_AX) s.logLikelihood
    (condNo s.X_transp_AX) s.status)

/-! ## Robust (sandwich) variance state (`RobustLogRegrTransitionState`) -/

/-- The robust-variance state.  Layout from
`RobustLogRegrTransitionState::rebind`: iteration, widthOfX, coef
(inter-iteration); numRows, X_transp_AX, meat (intra-iteration).  There is
no status and no logLikelihood field. -/
structure RobustLogRegrTransitionState where
  iteration : ℕ
  widthOfX : ℕ
  coef : ℕ → ℝ
  numRows : ℕ
  X_transp_AX : ℕ → ℕ → ℝ
  meat : ℕ → ℕ → ℝ

/-- The database-initialized robust state (all elements 0). -/
def robustInitialState : RobustLogRegrTransitionState :=
  ⟨0, 0, fun _ => 0, 0, fun _ _ => 0, fun _ _ => 0⟩

/-- `RobustLogRegrTransitionState::operator+=`. -/
def robustPlusEq (l r : RobustLogRegrTransitionState) : RobustLogRegrTransitionState :=
  { l with
    numRows := l.numRows + r.numRows
    X_transp_AX := fun i j => l.X_transp_AX i j + r.X_transp_AX i j
    meat := fun i j => l.meat i j + r.meat i j }

/-- `robust_logregr_step_merge_states::run`. -/
def robust_logregr_step_merge_states (l r : RobustLogRegrTransitionState) :
    Option RobustLogRegrTransitionState :=
  if l.numRows = 0 then some r
  else if r.numRows = 0 then some l
  else if l.widthOfX = r.widthOfX then some (robustPlusEq l r) else none

/-- `robust_logregr_step_transition::run`.  The finiteness check, the
dimension-overflow guard and the state initialization are all compiled out
(`#if 0`), so the transition accumulates unconditionally: `numRows++`,
`meat += Grad Gradᵗ` with `Grad = sigma(-y xc) y x`, and a
`triangularView<Lower>` rank-one update of `X_transp_AX` (only entries with
row index ≥ column index). -/
noncomputable def robust_logregr_step_transition (s : RobustLogRegrTransitionState)
    (label : Bool) (x : ℕ → ℝ) (xlen : ℕ) (coef : ℕ → ℝ) :
    RobustLogRegrTransitionState :=
  let y := yOf label
  let xc := dotW xlen x coef
  let Grad := fun i => sigma (-y * xc) * y * x i
  let a := sigma xc * sigma (-xc)
  { s with
    numRows := s.numRows + 1
    meat := fun i j => s.meat i j + Grad i * Grad j
    X_transp_AX := fun i j =>
      if j ≤ i then s.X_transp_AX i j + x i * x j * a else s.X_transp_AX i j }

/-- The tuple built by `robuststateToResult`. -/
structure RobustResultTuple where
  coef : ℕ → ℝ
  stdErr : ℕ → ℝ
  waldZStats : ℕ → ℝ
  waldPValues : ℕ → ℝ

/-- `robuststateToResult`. -/
noncomputable def robuststateToResult (Phi : ℝ → ℝ) (inCoef : ℕ → ℝ)
    (diagonal_of_varianceMat : ℕ → ℝ) : RobustResultTuple :=
  { coef := inCoef
    stdErr := fun i => Real.sqrt (diagonal_of_varianceMat i)
    waldZStats := fun i => inCoef i / Real.sqrt (diagonal_of_varianceMat i)
    waldPValues := fun i =>
      2 * Phi (-|inCoef i / Real.sqrt (diagonal_of_varianceMat i)|) }

/-- `robust_logregr_step_final::run`: `bread = pseudoInverse(X_transp_AX)`,
`varianceMat = bread * meat * bread`, diagnostics from the diagonal of
`varianceMat`.  `pinv` models the external eigendecomposition. -/
noncomputable def robust_logregr_step_final (pinv : (ℕ → ℕ → ℝ) → (ℕ → ℕ → ℝ))
    (Phi : ℝ → ℝ) (s : RobustLogRegrTransitionState) : Option RobustResultTuple :=
  if s.numRows = 0 then none
  else
    let bread := pinv s.X_transp_AX
    let varianceMat := matMulW s.widthOfX (matMulW s.widthOfX bread s.meat) bread
    some (robuststateToResult Phi s.coef (fun i => varianceMat i i))

/-! ## Marginal-effects state (`MarginalLogRegrTransitionState`) -/

/-- The marginal-effects state.  Layout from
`MarginalLogRegrTransitionState::rebind`: iteration, widthOfX, coef
(inter-iteration); numRows, marginal_effects_per_observation, X_bar,
X_transp_AX (intra-iteration).  No status and no logLikelihood field. -/
structure MarginalLogRegrTransitionState where
  iteration : ℕ
  widthOfX : ℕ
  coef : ℕ → ℝ
  numRows : ℕ
  marginal_effects_per_observation : ℝ
  X_bar : ℕ → ℝ
  X_transp_AX : ℕ → ℕ → ℝ

/-- The database-initialized marginal-effects state (all elements 0). -/
def marginalInitialState : MarginalLogRegrTransitionState :=
  ⟨0, 0, fun _ => 0, 0, 0, fun _ => 0, fun _ _ => 0⟩

/-- `MarginalLogRegrTransitionState::operator+=`. -/
def marginalPlusEq (l r : MarginalLogRegrTransitionState) :
    MarginalLogRegrTransitionState :=
  { l with
    numRows := l.numRows + r.numRows
    marginal_effects_per_observation :=
      l.marginal_effects_per_observation + r.marginal_effects_per_observation
    X_bar := fun i => l.X_bar i + r.X_bar i
    X_transp_AX := fun i j => l.X_transp_AX i j + r.X_transp_AX i j }

/-- `marginal_logregr_step_merge_states::run`. -/
def marginal_logregr_step_merge_states (l r : MarginalLogRegrTransitionState) :
    Option MarginalLogRegrTransitionState :=
  if l.numRows = 0 then some r
  else if r.numRows = 0 then some l
  else if l.widthOfX = r.widthOfX then some (marginalPlusEq l r) else none

/-- `marginal_logregr_step_transition::run`.  As in the robust variant the
guard and initialization block is compiled out (`#if 0`); the label is read
but unused (commented out). -/
noncomputable def marginal_logregr_step_transition (s : MarginalLogRegrTransitionState)
    (x : ℕ → ℝ) (xlen : ℕ) (coef : ℕ → ℝ) : MarginalLogRegrTransitionState :=
  let xc := dotW xlen x coef
  let G_xc := Real.exp xc / (1 + Real.exp xc)
  let a := sigma xc * sigma (-xc)
  { s with
    numRows := s.numRows + 1
    marginal_effects_per_observation :=
      s.marginal_effects_per_observation + G_xc * (1 - G_xc)
    X_bar := fun i => s.X_bar i + x i
    X_transp_AX := fun i j => s.X_transp_AX i j + x i * x j * a }

/-- The tuple built by `marginalstateToResult`.  `pValues` is `none` when
the tuple slot carries `Null()`. -/
structure MarginalResultTuple where
  marginal_effects : ℕ → ℝ
  coef : ℕ → ℝ
  stdErr : ℕ → ℝ
  tStats : ℕ → ℝ
  pValues : Option (ℕ → ℝ)

/-- `marginalstateToResult`.  `numRows` arrives as a double; `w` is
`inCoef.size()`.  `tcdfCompl dof t` models the external
`prob::cdf(complement(students_t(dof), t))`.  P-values are put in the
tuple only when `numRows > inCoef.size()`, otherwise the slot is `Null()`. -/
noncomputable def marginalstateToResult (tcdfCompl : ℝ → ℝ → ℝ) (inCoef : ℕ → ℝ)
    (w : ℕ) (diagonal_of_variance_matrix : ℕ → ℝ)
    (inmarginal_effects_per_observation : ℝ) (numRows : ℝ) : MarginalResultTuple :=
  let marginal_effects := fun i =>
    inCoef i * inmarginal_effects_per_observation / numRows
  let stdErr := fun i => Real.sqrt (diagonal_of_variance_matrix i)
  let tStats := fun i => marginal_effects i / stdErr i
  { marginal_effects := marginal_effects
    coef := inCoef
    stdErr := stdErr
    tStats := tStats
    pValues :=
      if (w : ℝ) < numRows then
        some (fun i => 2 * tcdfCompl (numRows - (w : ℝ)) |tStats i|)
      else none }

/-- `marginal_logregr_step_final::run`: delta-method standard errors with
`variance = pseudoInverse(X_transp_AX)`,
`delta = I + (1 - 2 p) coef X_barᵗ / numRows`,
`std_err = p (1-p) delta variance deltaᵗ p (1-p)`. -/
noncomputable def marginal_logregr_step_final (pinv : (ℕ → ℕ → ℝ) → (ℕ → ℕ → ℝ))
    (tcdfCompl : ℝ → ℝ → ℝ) (s : MarginalLogRegrTransitionState) :
    Option MarginalResultTuple :=
  if s.numRows = 0 then none
  else
    let variance := pinv s.X_transp_AX
    let xc := dotW s.widthOfX s.coef s.X_bar / (s.numRows : ℝ)
    let p := Real.exp xc / (1 + Real.exp xc)
    let delta := fun i j =>
      (if i = j then 1 else 0) + (1 - 2 * p) * s.coef i * s.X_bar j / (s.numRows : ℝ)
    let std_err := fun i j =>
      p * (1 - p) *
        matMulW s.widthOfX (matMulW s.widthOfX delta variance) (fun a b => delta b a) i j
        * p * (1 - p)
    some (marginalstateToResult tcdfCompl s.coef s.widthOfX (fun i => std_err i i)
      s.marginal_effects_per_observation (s.numRows : ℝ))

/-! ## States produced by the dimension-overflow guard -/

/-- The CG state produced when the very first row is over-wide: the initial
state with status TERMINATED (reachable, hence a valid partial state). -/
def cgTerminatedEmptyState : LogRegrCGTransitionState :=
  { cgInitialState with status := TERMINATED }

/-! ## Claim C5 -/

/-- C5 (amended).  A zero-row LEFT operand short-circuits the merge to its
partner, for every variant; a zero-row RIGHT operand returns the left
operand `A` exactly when `A.numRows ≠ 0` (when `A` also has zero rows the
result is the right operand instead, so a zero-row state is only a
one-sided identity on zero-row partners). -/
theorem merge_zero_row_identity :
    (∀ A B : LogRegrCGTransitionState, B.numRows = 0 →
      logregr_cg_step_merge_states B A = some A ∧
      (A.numRows ≠ 0 → logregr_cg_step_merge_states A B = some A)) ∧
    (∀ A B : LogRegrIRLSTransitionState, B.numRows = 0 →
      logregr_irls_step_merge_states B A = some A ∧
      (A.numRows ≠ 0 → logregr_irls_step_merge_states A B = some A)) ∧
    (∀ A B : LogRegrIGDTransitionState, B.numRows = 0 →
      logregr_igd_step_merge_states B A = some A ∧
      (A.numRows ≠ 0 → logregr_igd_step_merge_states A B = some A)) ∧
    (∀ A B : RobustLogRegrTransitionState, B.numRows = 0 →
      robust_logregr_step_merge_states B A = some A ∧
      (A.numRows ≠ 0 → robust_logregr_step_merge_states A B = some A)) ∧
    (∀ A B : MarginalLogRegrTransitionState, B.numRows = 0 →
      marginal_logregr_step_merge_states B A = some A ∧
      (A.numRows ≠ 0 → marginal_logregr_step_merge_states A B = some A)) := by
  refine ⟨?_, ?_, ?_, ?_, ?_⟩ <;>
    exact fun A B hB =>
      ⟨by simp [logregr_cg_step_merge_states, logregr_irls_step_merge_states,
          logregr_igd_step_merge_states, robust_logregr_step_merge_states,
          marginal_logregr_step_merge_states, hB],
       fun hA => by
        simp [logregr_cg_step_merge_states, logregr_irls_step_merge_states,
          logregr_igd_step_merge_states, robust_logregr_step_merge_states,
          marginal_logregr_step_merge_states, hA, hB]⟩

/-- C5 counterexample.  `A = cgInitialState` is a state and
`cgTerminatedEmptyState` is a zero-row state (produced by the overflow
guard), yet merging them does not yield `A`: the zero-row left operand
short-circuits to its partner, discarding `A` and its status. -/
theorem merge_zero_row_identity_cex :
    logregr_cg_step_merge_states cgInitialState cgTerminatedEmptyState
      ≠ some cgInitialState := by
  have h1 : logregr_cg_step_merge_states cgInitialState cgTerminatedEmptyState
      = some cgTerminatedEmptyState := rfl
  rw [h1]
  intro h
  have h2 : cgTerminatedEmptyState.status = cgInitialState.status :=
    congrArg LogRegrCGTransitionState.status (Option.some.inj h)
  simp [cgTerminatedEmptyState, cgInitialState, cgInitialize, TERMINATED,
    IN_PROCESS] at h2

/-- C5 witness: the amended statement evaluated on concrete states. -/
theorem merge_zero_row_identity_witness :
    cgInitialState.numRows = 0 ∧
    (⟨0, 0, fun _ => 0, fun _ => 0, fun _ => 0, 0, 1, fun _ => 0, fun _ _ => 0, 0,
        0⟩ : LogRegrCGTransitionState).numRows ≠ 0 ∧
    logregr_cg_step_merge_states cgInitialState
        ⟨0, 0, fun _ => 0, fun _ => 0, fun _ => 0, 0, 1, fun _ => 0, fun _ _ => 0, 0, 0⟩
      = some ⟨0, 0, fun _ => 0, fun _ => 0, fun _ => 0, 0, 1, fun _ => 0,
          fun _ _ => 0, 0, 0⟩ ∧
    logregr_cg_step_merge_states
        ⟨0, 0, fun _ => 0, fun _ => 0, fun _ => 0, 0, 1, fun _ => 0, fun _ _ => 0, 0, 0⟩
        cgInitialState
      = some ⟨0, 0, fun _ => 0, fun _ => 0, fun _ => 0, 0, 1, fun _ => 0,
          fun _ _ => 0, 0, 0⟩ :=
  ⟨rfl, by decide,
   (merge_zero_row_identity.1 _ cgInitialState rfl).1,
   (merge_zero_row_identity.1 _ cgInitialState rfl).2 (by decide)⟩

/-! ## Claim C2 -/

/-- C2 (amended).  Every variant's FINAL function returns Null on a state
with `numRows = 0`; but the internal RESULT functions (CG, IRLS, IGD)
perform no `numRows` check and return a diagnostics tuple unconditionally,
zero-row states included. -/
theorem finalize_result_no_data :
    (∀ s, s.numRows = 0 → logregr_cg_step_final s = none) ∧
    (∀ pinv condNo s, s.numRows = 0 → logregr_irls_step_final pinv condNo s = none) ∧
    (∀ s, s.numRows = 0 → logregr_igd_step_final s = none) ∧
    (∀ pinv Phi s, s.numRows = 0 → robust_logregr_step_final pinv Phi s = none) ∧
    (∀ pinv tcdfCompl s, s.numRows = 0 →
      marginal_logregr_step_final pinv tcdfCompl s = none) ∧
    (∀ pinvDiag condNo Phi s,
      (internal_logregr_cg_result pinvDiag condNo Phi s).isSome = true) ∧
    (∀ Phi s, (internal_logregr_irls_result Phi s).isSome = true) ∧
    (∀ pinvDiag condNo Phi s,
      (internal_logregr_igd_result pinvDiag condNo Phi s).isSome = true) := by
  refine ⟨fun s h => by simp [logregr_cg_step_final, h],
    fun pinv condNo s h => by simp [logregr_irls_step_final, h],
    fun s h => by simp [logregr_igd_step_final, h],
    fun pinv Phi s h => by simp [robust_logregr_step_final, h],
    fun pinv tcdfCompl s h => by simp [marginal_logregr_step_final, h],
    fun pinvDiag condNo Phi s => rfl,
    fun Phi s => rfl,
    fun pinvDiag condNo Phi s => rfl⟩

/-- C2 counterexample: the CG result function applied to the zero-row
initial state still returns a tuple, not Null. -/
theorem finalize_result_no_data_cex :
    cgInitialState.numRows = 0 ∧
    internal_logregr_cg_result (fun _ => fun _ => 0) (fun _ => 0) (fun _ => 0)
      cgInitialState ≠ none :=
  ⟨rfl, by simp [internal_logregr_cg_result]⟩

/-- C2 witness: the final functions evaluated on the concrete zero-row
initial states. -/
theorem finalize_result_no_data_witness :
    cgInitialState.numRows = 0 ∧
    logregr_cg_step_final cgInitialState = none ∧
    logregr_irls_step_final (fun M => M) (fun _ => 0) irlsInitialState = none ∧
    logregr_igd_step_final igdInitialState = none ∧
    robust_logregr_step_final (fun M => M) (fun _ => 0) robustInitialState = none ∧
    marginal_logregr_step_final (fun M => M) (fun _ _ => 0) marginalInitialState
      = none :=
  ⟨rfl,
   finalize_result_no_data.1 _ rfl,
   finalize_result_no_data.2.1 _ _ _ rfl,
   finalize_result_no_data.2.2.1 _ rfl,
   finalize_result_no_data.2.2.2.1 _ _ _ rfl,
   finalize_result_no_data.2.2.2.2.1 _ _ _ rfl⟩

/-! ## Claim C4 -/

/-- C4 (amended).  The CG, IRLS and IGD transitions reject an over-wide
first row (more than 65535 features) by marking the state TERMINATED and
returning it otherwise unchanged, with no accumulation.  The robust and
marginal transitions contain no such guard (it is compiled out together
with the initialization block): they accumulate every row unconditionally,
and their states have no status field to mark. -/
theorem dimension_overflow_guard :
    (∀ s label x xlen prev, s.numRows = 0 → 65535 < xlen →
      logregr_cg_step_transition s label x xlen prev
        = { s with status := TERMINATED }) ∧
    (∀ s label x xlen prev, s.numRows = 0 → 65535 < xlen →
      logregr_irls_step_transition s label x xlen prev
        = { s with status := TERMINATED }) ∧
    (∀ s label x xlen prev, s.numRows = 0 → 65535 < xlen →
      logregr_igd_step_transition s label x xlen prev
        = { s with status := TERMINATED }) ∧
    (∀ s label x xlen coef,
      (robust_logregr_step_transition s label x xlen coef).numRows
        = s.numRows + 1) ∧
    (∀ s x xlen coef,
      (marginal_logregr_step_transition s x xlen coef).numRows
        = s.numRows + 1) := by
  refine ⟨fun s label x xlen prev h0 hx => ?_,
    fun s label x xlen prev h0 hx => ?_,
    fun s label x xlen prev h0 hx => ?_,
    fun s label x xlen coef => rfl,
    fun s x xlen coef => rfl⟩ <;>
  · first
    | (unfold logregr_cg_step_transition; rw [if_pos h0, if_pos hx])
    | (unfold logregr_irls_step_transition; rw [if_pos h0, if_pos hx])
    | (unfold logregr_igd_step_transition; rw [if_pos h0, if_pos hx])

/-- C4 counterexample: the robust transition on the fresh zero-row state
with a 66000-wide row accumulates it (`numRows` becomes 1) instead of
rejecting it — there is no TERMINATED marking and no guard. -/
theorem dimension_overflow_guard_cex :
    robustInitialState.numRows = 0 ∧ 65535 < 66000 ∧
    (robust_logregr_step_transition robustInitialState true (fun _ => 1) 66000
      (fun _ => 0)).numRows = 1 ∧ (1 : ℕ) ≠ 0 :=
  ⟨rfl, by decide, rfl, by decide⟩

/-- C4 witness: the CG guard evaluated at a concrete over-wide row. -/
theorem dimension_overflow_guard_witness :
    cgInitialState.numRows = 0 ∧ 65535 < 65536 ∧
    logregr_cg_step_transition cgInitialState true (fun _ => 1) 65536 none
      = { cgInitialState with status := TERMINATED } :=
  ⟨rfl, by decide,
   dimension_overflow_guard.1 cgInitialState true (fun _ => 1) 65536 none rfl
     (by decide)⟩

/-! ## Claim C10 -/

/-- C10.  On the very first IGD transition (fresh state, NULL previous
state, row width within bounds) the transition runs the gradient step on
`igdFirstState xlen`, whose coefficient vector is 0.1 in every component
(below the row width) and whose step size is the hard-coded 0.01 — IGD
optimization starts from the constant-0.1 vector, not from zero. -/
theorem igd_first_transition_initial_coef :
    ∀ (s : LogRegrIGDTransitionState) label x xlen, s.numRows = 0 → xlen ≤ 65535 →
      logregr_igd_step_transition s label x xlen none
        = igdTransitionStep (igdFirstState xlen) label x ∧
      (∀ i, i < xlen → (igdFirstState xlen).coef i = 0.1) ∧
      (igdFirstState xlen).stepsize = 0.01 ∧
      (0 < xlen → (igdFirstState xlen).coef 0 ≠ 0) := by
  intro s label x xlen h0 hx
  refine ⟨?_, fun i hi => by simp [igdFirstState, hi], rfl, fun hpos => ?_⟩
  · unfold logregr_igd_step_transition
    rw [if_pos h0, if_neg (by omega)]
  · simp only [igdFirstState, hpos, if_pos hpos]
    norm_num

/-- C10 witness: the first IGD transition evaluated at a concrete input. -/
theorem igd_first_transition_initial_coef_witness :
    igdInitialState.numRows = 0 ∧ (1 : ℕ) ≤ 65535 ∧
    logregr_igd_step_transition igdInitialState true (fun _ => 1) 1 none
      = igdTransitionStep (igdFirstState 1) true (fun _ => 1) ∧
    (igdFirstState 1).coef 0 = 0.1 :=
  ⟨rfl, by decide,
   (igd_first_transition_initial_coef igdInitialState true (fun _ => 1) 1 rfl
     (by decide)).1,
   (igd_first_transition_initial_coef igdInitialState true (fun _ => 1) 1 rfl
     (by decide)).2.1 0 (by decide)⟩

/-! ## Claim C3 -/

/-- C3 (amended).  For the CG and IRLS variants, every row transition on an
already-initialized state (numRows ≠ 0) adds `x xᵗ a` with
`a = sigma(xc) sigma(-xc)`, `xc = x·coef`, to `X_transp_AX` and subtracts
`ln(1 + e^{-y xc})` from `logLikelihood`.  The IGD transition performs
neither accumulation (that code is compiled out): it leaves `X_transp_AX`
and `logLikelihood` unchanged. -/
theorem transition_accumulates_hessian_loglik :
    (∀ (s : LogRegrCGTransitionState) label x xlen prev, s.numRows ≠ 0 →
      (logregr_cg_step_transition s label x xlen prev).X_transp_AX
        = (fun i j => s.X_transp_AX i j + x i * x j *
            (sigma (dotW s.widthOfX x s.coef) * sigma (-dotW s.widthOfX x s.coef))) ∧
      (logregr_cg_step_transition s label x xlen prev).logLikelihood
        = s.logLikelihood
          - Real.log (1 + Real.exp (-(yOf label) * dotW s.widthOfX x s.coef))) ∧
    (∀ (s : LogRegrIRLSTransitionState) label x xlen prev, s.numRows ≠ 0 →
      (logregr_irls_step_transition s label x xlen prev).X_transp_AX
        = (fun i j => s.X_transp_AX i j + x i * x j *
            (sigma (dotW s.widthOfX x s.coef) * sigma (-dotW s.widthOfX x s.coef))) ∧
      (logregr_irls_step_transition s label x xlen prev).logLikelihood
        = s.logLikelihood
          - Real.log (1 + Real.exp (-(yOf label) * dotW s.widthOfX x s.coef))) ∧
    (∀ (s : LogRegrIGDTransitionState) label x xlen prev, s.numRows ≠ 0 →
      (logregr_igd_step_transition s label x xlen prev).X_transp_AX
        = s.X_transp_AX ∧
      (logregr_igd_step_transition s label x xlen prev).logLikelihood
        = s.logLikelihood) := by
  refine ⟨fun s label x xlen prev h => ?_, fun s label x xlen prev h => ?_,
    fun s label x xlen prev h => ?_⟩
  · unfold logregr_cg_step_transition
    rw [if_neg h]
    exact ⟨rfl, rfl⟩
  · unfold logregr_irls_step_transition
    rw [if_neg h]
    exact ⟨rfl, rfl⟩
  · unfold logregr_igd_step_transition
    rw [if_neg h]
    exact ⟨rfl, rfl⟩

/-- C3 counterexample.  The IGD transition on the first row (with the
0.1-initialized coefficients, so `xc = 0.1` here) leaves `logLikelihood`
at 0 instead of subtracting `ln(1 + e^{-y xc}) > 0` as the claim requires,
and likewise leaves `X_transp_AX` at zero. -/
theorem transition_accumulates_hessian_loglik_cex :
    (logregr_igd_step_transition igdInitialState true (fun _ => 1) 1 none).logLikelihood
      = 0 ∧
    (logregr_igd_step_transition igdInitialState true (fun _ => 1) 1 none).logLikelihood
      ≠ 0 - Real.log (1 + Real.exp (-(yOf true) *
          dotW 1 (fun _ => 1) (igdFirstState 1).coef)) := by
  have hL :
      (logregr_igd_step_transition igdInitialState true (fun _ => 1) 1
        none).logLikelihood = 0 := rfl
  refine ⟨hL, ?_⟩
  rw [hL]
  have hpos : (0 : ℝ)
      < Real.log (1 + Real.exp (-(yOf true) *
          dotW 1 (fun _ => 1) (igdFirstState 1).coef)) := by
    apply Real.log_pos
    have := Real.exp_pos (-(yOf true) * dotW 1 (fun _ => 1) (igdFirstState 1).coef)
    linarith
  intro h
  rw [zero_sub] at h
  linarith

/-- C3 witness: the CG accumulation evaluated at a concrete one-row state. -/
theorem transition_accumulates_hessian_loglik_witness :
    (⟨0, 1, fun _ => 0, fun _ => 0, fun _ => 0, 0, 1, fun _ => 0, fun _ _ => 0, 0,
        0⟩ : LogRegrCGTransitionState).numRows ≠ 0 ∧
    ((logregr_cg_step_transition
        ⟨0, 1, fun _ => 0, fun _ => 0, fun _ => 0, 0, 1, fun _ => 0, fun _ _ => 0, 0, 0⟩
        true (fun _ => 1) 1 none).X_transp_AX
      = (fun i j => (fun _ _ => (0 : ℝ)) i j + (fun _ => (1 : ℝ)) i * (fun _ => (1 : ℝ)) j *
          (sigma (dotW 1 (fun _ => 1) (fun _ => 0))
            * sigma (-dotW 1 (fun _ => 1) (fun _ => 0))))) :=
  ⟨by decide,
   (transition_accumulates_hessian_loglik.1
     ⟨0, 1, fun _ => 0, fun _ => 0, fun _ => 0, 0, 1, fun _ => 0, fun _ _ => 0, 0, 0⟩
     true (fun _ => 1) 1 none (by decide)).1⟩

/-! ## Claim C6 -/

/-- `s` holds the weighted average of a group of partitions with component
totals `S` and total row count `N`. -/
def IGDRepresents (s : LogRegrIGDTransitionState) (S : ℕ → ℝ) (N : ℕ) : Prop :=
  s.numRows = N ∧ 0 < N ∧ ∀ i, s.coef i = S i / (N : ℝ)

/-- C6.  Merging two non-empty IGD states of equal width yields the
row-count-weighted convex combination `(n1 c1 + n2 c2)/(n1 + n2)` of the
coefficient vectors and the row count `n1 + n2`; consequently the
weighted-average invariant `IGDRepresents` is preserved by every merge, so
after any sequence of merges the model is the row-count-weighted average of
the per-partition models. -/
theorem igd_merge_weighted_average :
    (∀ l r : LogRegrIGDTransitionState, l.numRows ≠ 0 → r.numRows ≠ 0 →
      l.widthOfX = r.widthOfX →
      logregr_igd_step_merge_states l r = some (igdPlusEq l r) ∧
      (igdPlusEq l r).numRows = l.numRows + r.numRows ∧
      ∀ i, (igdPlusEq l r).coef i
        = ((l.numRows : ℝ) * l.coef i + (r.numRows : ℝ) * r.coef i)
          / ((l.numRows : ℝ) + (r.numRows : ℝ))) ∧
    (∀ l r S1 S2 N1 N2, l.widthOfX = r.widthOfX →
      IGDRepresents l S1 N1 → IGDRepresents r S2 N2 →
      ∃ m, logregr_igd_step_merge_states l r = some m ∧
        IGDRepresents m (fun i => S1 i + S2 i) (N1 + N2)) := by
  constructor
  · intro l r hl hr hw
    refine ⟨by simp [logregr_igd_step_merge_states, hl, hr, hw], rfl, fun i => ?_⟩
    show (l.numRows : ℝ) / ((l.numRows : ℝ) + (r.numRows : ℝ)) * l.coef i
        + (r.numRows : ℝ) / ((l.numRows : ℝ) + (r.numRows : ℝ)) * r.coef i
      = ((l.numRows : ℝ) * l.coef i + (r.numRows : ℝ) * r.coef i)
        / ((l.numRows : ℝ) + (r.numRows : ℝ))
    ring
  · rintro l r S1 S2 N1 N2 hw ⟨hl1, hl2, hl3⟩ ⟨hr1, hr2, hr3⟩
    have hln : l.numRows ≠ 0 := by omega
    have hrn : r.numRows ≠ 0 := by omega
    have hlr : (l.numRows : ℝ) ≠ 0 := Nat.cast_ne_zero.mpr hln
    have hrr : (r.numRows : ℝ) ≠ 0 := Nat.cast_ne_zero.mpr hrn
    refine ⟨igdPlusEq l r,
      by simp [logregr_igd_step_merge_states, hln, hrn, hw],
      by simp [igdPlusEq, hl1, hr1], by omega, fun i => ?_⟩
    show (l.numRows : ℝ) / ((l.numRows : ℝ) + (r.numRows : ℝ)) * l.coef i
        + (r.numRows : ℝ) / ((l.numRows : ℝ) + (r.numRows : ℝ)) * r.coef i
      = (S1 i + S2 i) / ((N1 + N2 : ℕ) : ℝ)
    rw [hl3 i, hr3 i, hl1, hr1]
    have hN1 : ((N1 : ℕ) : ℝ) ≠ 0 := by rw [← hl1]; exact hlr
    have hN2 : ((N2 : ℕ) : ℝ) ≠ 0 := by rw [← hr1]; exact hrr
    push_cast
    field_simp
    ring

/-- C6 witness: two concrete one-row states with coefficients 2 and 4 merge
to coefficient `(1·2 + 1·4)/2 = 3` and the invariant is preserved. -/
theorem igd_merge_weighted_average_witness :
    (⟨1, 0.01, fun _ => 2, 1, fun _ _ => 0, 0, 0⟩ :
        LogRegrIGDTransitionState).numRows ≠ 0 ∧
    IGDRepresents ⟨1, 0.01, fun _ => 2, 1, fun _ _ => 0, 0, 0⟩ (fun _ => 2) 1 ∧
    (∀ i, (igdPlusEq ⟨1, 0.01, fun _ => 2, 1, fun _ _ => 0, 0, 0⟩
        ⟨1, 0.01, fun _ => 4, 1, fun _ _ => 0, 0, 0⟩).coef i
      = ((1 : ℝ) * 2 + (1 : ℝ) * 4) / ((1 : ℝ) + (1 : ℝ))) ∧
    (∃ m, logregr_igd_step_merge_states
        ⟨1, 0.01, fun _ => 2, 1, fun _ _ => 0, 0, 0⟩
        ⟨1, 0.01, fun _ => 4, 1, fun _ _ => 0, 0, 0⟩ = some m ∧
      IGDRepresents m (fun i => (fun _ => (2 : ℝ)) i + (fun _ => (4 : ℝ)) i) (1 + 1)) := by
  refine ⟨by decide, ⟨rfl, by decide, fun i => by norm_num⟩, fun i => ?_, ?_⟩
  · have h := (igd_merge_weighted_average.1
      ⟨1, 0.01, fun _ => 2, 1, fun _ _ => 0, 0, 0⟩
      ⟨1, 0.01, fun _ => 4, 1, fun _ _ => 0, 0, 0⟩
      (by decide) (by decide) rfl).2.2 i
    simpa using h
  · exact igd_merge_weighted_average.2
      ⟨1, 0.01, fun _ => 2, 1, fun _ _ => 0, 0, 0⟩
      ⟨1, 0.01, fun _ => 4, 1, fun _ _ => 0, 0, 0⟩
      (fun _ => 2) (fun _ => 4) 1 1 rfl
      ⟨rfl, by decide, fun i => by norm_num⟩
      ⟨rfl, by decide, fun i => by norm_num⟩

/-! ## Claim C9 -/

/-- C9.  The marginal-effects result withholds p-values (the tuple slot is
Null) whenever `numRows ≤ widthOfX`, and reports p-values computed from the
Student-t complement CDF with `numRows − widthOfX` degrees of freedom
whenever `numRows > widthOfX`; at the boundary `numRows = widthOfX + 1` the
degrees of freedom are exactly 1. -/
theorem marginal_pvalue_policy :
    ∀ pinv tcdfCompl (s : MarginalLogRegrTransitionState), s.numRows ≠ 0 →
      (s.numRows ≤ s.widthOfX →
        Option.map MarginalResultTuple.pValues
          (marginal_logregr_step_final pinv tcdfCompl s) = some none) ∧
      (s.widthOfX < s.numRows →
        ∃ r, marginal_logregr_step_final pinv tcdfCompl s = some r ∧
          r.pValues = some (fun i =>
            2 * tcdfCompl ((s.numRows : ℝ) - (s.widthOfX : ℝ)) |r.tStats i|)) ∧
      (s.numRows = s.widthOfX + 1 →
        ∃ r, marginal_logregr_step_final pinv tcdfCompl s = some r ∧
          r.pValues = some (fun i => 2 * tcdfCompl 1 |r.tStats i|)) := by
  intro pinv tcdfCompl s h0
  refine ⟨fun hle => ?_, fun hlt => ?_, fun heq => ?_⟩
  · simp only [marginal_logregr_step_final, if_neg h0, Option.map_some']
    simp only [marginalstateToResult]
    rw [if_neg (by exact_mod_cast Nat.not_lt.mpr hle)]
  · unfold marginal_logregr_step_final
    rw [if_neg h0]
    refine ⟨_, rfl, ?_⟩
    simp only [marginalstateToResult]
    rw [if_pos (by exact_mod_cast hlt)]
  · unfold marginal_logregr_step_final
    rw [if_neg h0]
    refine ⟨_, rfl, ?_⟩
    simp only [marginalstateToResult]
    rw [if_pos (by exact_mod_cast (by omega : s.widthOfX < s.numRows))]
    have hdof : (s.numRows : ℝ) - (s.widthOfX : ℝ) = 1 := by
      rw [heq]; push_cast; ring
    rw [hdof]

/-- C9 witness: concrete states at the boundary — `numRows = widthOfX = 1`
withholds p-values; `numRows = 2 = widthOfX + 1` reports them with 1 degree
of freedom. -/
theorem marginal_pvalue_policy_witness :
    (⟨0, 1, fun _ => 0, 1, 0, fun _ => 0, fun _ _ => 0⟩ :
        MarginalLogRegrTransitionState).numRows ≠ 0 ∧
    Option.map MarginalResultTuple.pValues
      (marginal_logregr_step_final (fun M => M) (fun _ _ => 0)
        ⟨0, 1, fun _ => 0, 1, 0, fun _ => 0, fun _ _ => 0⟩) = some none ∧
    (∃ r, marginal_logregr_step_final (fun M => M) (fun _ _ => 0)
        ⟨0, 1, fun _ => 0, 2, 0, fun _ => 0, fun _ _ => 0⟩ = some r ∧
      r.pValues = some (fun i => 2 * (fun _ _ => (0 : ℝ)) 1 |r.tStats i|)) :=
  ⟨by decide,
   (marginal_pvalue_policy (fun M => M) (fun _ _ => 0)
     ⟨0, 1, fun _ => 0, 1, 0, fun _ => 0, fun _ _ => 0⟩ (by decide)).1 (by decide),
   (marginal_pvalue_policy (fun M => M) (fun _ _ => 0)
     ⟨0, 1, fun _ => 0, 2, 0, fun _ => 0, fun _ _ => 0⟩ (by decide)).2.2 rfl⟩

/-! ## Claim C8 -/

/-- C8.  Robust-variance finalize on a non-empty state computes
`bread = pseudoInverse(X_transp_AX)` and reports diagnostics from the
diagonal of `variance = bread · meat · bread`; when the accumulated meat
matrix equals the accumulated `X_transp_AX` and the pseudo-inverse satisfies
the Moore-Penrose identity `bread · X · bread = bread` (a contract of the
external linear-algebra library), the sandwich variance reduces exactly to
`bread`. -/
theorem robust_sandwich_variance :
    ∀ pinv Phi (s : RobustLogRegrTransitionState), s.numRows ≠ 0 →
      robust_logregr_step_final pinv Phi s
        = some (robuststateToResult Phi s.coef (fun i =>
            matMulW s.widthOfX
              (matMulW s.widthOfX (pinv s.X_transp_AX) s.meat)
              (pinv s.X_transp_AX) i i)) ∧
      (s.meat = s.X_transp_AX →
        matMulW s.widthOfX
            (matMulW s.widthOfX (pinv s.X_transp_AX) s.X_transp_AX)
            (pinv s.X_transp_AX) = pinv s.X_transp_AX →
        robust_logregr_step_final pinv Phi s
          = some (robuststateToResult Phi s.coef
              (fun i => pinv s.X_transp_AX i i))) := by
  intro pinv Phi s h0
  have h1 : robust_logregr_step_final pinv Phi s
      = some (robuststateToResult Phi s.coef (fun i =>
          matMulW s.widthOfX
            (matMulW s.widthOfX (pinv s.X_transp_AX) s.meat)
            (pinv s.X_transp_AX) i i)) := by
    simp only [robust_logregr_step_final, if_neg h0]
  refine ⟨h1, fun hmeat hmp => ?_⟩
  rw [h1, hmeat]
  simp only [hmp]

/-- C8 witness: a concrete one-row state with `meat = X_transp_AX = 0` and
the zero pseudo-inverse, for which the Moore-Penrose identity holds
trivially and the sandwich collapses to the bread. -/
theorem robust_sandwich_variance_witness :
    (⟨0, 1, fun _ => 0, 1, fun _ _ => 0, fun _ _ => 0⟩ :
        RobustLogRegrTransitionState).numRows ≠ 0 ∧
    robust_logregr_step_final (fun _ => fun _ _ => 0) (fun _ => 0)
        ⟨0, 1, fun _ => 0, 1, fun _ _ => 0, fun _ _ => 0⟩
      = some (robuststateToResult (fun _ => 0) (fun _ => 0)
          (fun i => (fun _ _ => (0 : ℝ)) i i)) := by
  have hmp : matMulW 1
      (matMulW 1 ((fun _ => fun _ _ => (0 : ℝ))
        ((⟨0, 1, fun _ => 0, 1, fun _ _ => 0, fun _ _ => 0⟩ :
          RobustLogRegrTransitionState).X_transp_AX))
        ((⟨0, 1, fun _ => 0, 1, fun _ _ => 0, fun _ _ => 0⟩ :
          RobustLogRegrTransitionState).X_transp_AX))
      ((fun _ => fun _ _ => (0 : ℝ))
        ((⟨0, 1, fun _ => 0, 1, fun _ _ => 0, fun _ _ => 0⟩ :
          RobustLogRegrTransitionState).X_transp_AX))
      = (fun _ => fun _ _ => (0 : ℝ))
        ((⟨0, 1, fun _ => 0, 1, fun _ _ => 0, fun _ _ => 0⟩ :
          RobustLogRegrTransitionState).X_transp_AX) := by
    funext i j
    simp [matMulW]
  exact ⟨by decide,
    (robust_sandwich_variance (fun _ => fun _ _ => 0) (fun _ => 0)
      ⟨0, 1, fun _ => 0, 1, fun _ _ => 0, fun _ _ => 0⟩ (by decide)).2 rfl hmp⟩

/-! ## Claim C7 -/

/-- The scenario feature vector `x = [1, 2]`. -/
def cgScenarioX : ℕ → ℝ := fun i => if i = 0 then 1 else if i = 1 then 2 else 0

/-- The CG state after one transition with `x = [1,2]`, `y = +1`, starting
from the fresh initial state (`coef = [0,0]`). -/
noncomputable def cgScenarioState : LogRegrCGTransitionState :=
  logregr_cg_step_transition cgInitialState true cgScenarioX 2 none

/-- C7.  CG finalize on a non-empty state: at iteration 0 it sets
`dir = grad = gradNew`; at later iterations it sets `beta` to the
Hestenes-Stiefel value `(gradNew·Δg)/(dir·Δg)`, resetting it to 0 when the
Polak-Ribière ratio `(gradNew·Δg)/(grad·grad)` is at most the smallest
positive subnormal, then `dir = gradNew − beta·dir`, `grad = gradNew`; in
all cases `coef += ((grad·dir)/(dirᵗ (X_transp_AX) dir))·dir` with the
updated `grad`, `dir`, and `iteration` is incremented.  In the one-row
scenario `x = [1,2]`, `y = +1`, `coef = [0,0]`: `gradNew = [1/2, 1]`,
`logLikelihood = −ln 2`, and the first finalize sets
`dir = grad = [1/2, 1]`. -/
theorem cg_final_update :
    (∀ s : LogRegrCGTransitionState, s.numRows ≠ 0 →
      ∃ t, logregr_cg_step_final s = some t ∧
        (s.iteration = 0 → t.dir = s.gradNew ∧ t.grad = s.gradNew) ∧
        (s.iteration ≠ 0 →
          ((dotW s.widthOfX s.gradNew (fun i => s.gradNew i - s.grad i)
              / dotW s.widthOfX s.grad s.grad ≤ denormMin → t.beta = 0) ∧
           (¬ dotW s.widthOfX s.gradNew (fun i => s.gradNew i - s.grad i)
              / dotW s.widthOfX s.grad s.grad ≤ denormMin →
            t.beta = dotW s.widthOfX s.gradNew (fun i => s.gradNew i - s.grad i)
              / dotW s.widthOfX s.dir (fun i => s.gradNew i - s.grad i)) ∧
           t.dir = (fun i => s.gradNew i - t.beta * s.dir i) ∧
           t.grad = s.gradNew)) ∧
        t.coef = (fun i => s.coef i
          + dotW s.widthOfX t.grad t.dir
            / quadFormW s.widthOfX t.dir s.X_transp_AX * t.dir i) ∧
        t.iteration = s.iteration + 1) ∧
    (cgScenarioState.gradNew 0 = 1 / 2 ∧ cgScenarioState.gradNew 1 = 1 ∧
     cgScenarioState.logLikelihood = -Real.log 2 ∧
     Option.map (fun t => (t.dir 0, t.dir 1, t.grad 0, t.grad 1))
       (logregr_cg_step_final cgScenarioState) = some (1 / 2, 1, 1 / 2, 1)) := by
  constructor
  · intro s h0
    unfold logregr_cg_step_final
    rw [if_neg h0]
    by_cases hit : s.iteration = 0
    · rw [if_pos hit]
      exact ⟨_, rfl, fun _ => ⟨rfl, rfl⟩, fun h => absurd hit h, rfl, rfl⟩
    · rw [if_neg hit]
      dsimp only
      by_cases hb : dotW s.widthOfX s.gradNew (fun i => s.gradNew i - s.grad i)
          / dotW s.widthOfX s.grad s.grad ≤ denormMin
      · rw [if_pos hb]
        exact ⟨_, rfl, fun h => absurd h hit,
          fun _ => ⟨fun _ => rfl, fun h2 => absurd hb h2, rfl, rfl⟩, rfl, rfl⟩
      · rw [if_neg hb]
        exact ⟨_, rfl, fun h => absurd h hit,
          fun _ => ⟨fun h2 => absurd h2 hb, fun _ => rfl, rfl, rfl⟩, rfl, rfl⟩
  · have hstate : cgScenarioState = cgTransitionStep (cgInitialize 2) true cgScenarioX :=
      rfl
    have hxc : dotW (cgInitialize 2).widthOfX cgScenarioX (cgInitialize 2).coef = 0 := by
      simp [dotW, cgInitialize]
    have hs0 : sigma (-(yOf true) * 0) = 1 / 2 := by
      simp [sigma, yOf, Real.exp_zero]
      norm_num
    have hgrad : ∀ i, cgScenarioState.gradNew i = 1 / 2 * cgScenarioX i := by
      intro i
      rw [hstate]
      show (cgInitialize 2).gradNew i
          + sigma (-(yOf true) * dotW (cgInitialize 2).widthOfX cgScenarioX
              (cgInitialize 2).coef) * yOf true * cgScenarioX i
        = 1 / 2 * cgScenarioX i
      rw [hxc, hs0]
      simp [cgInitialize, yOf]
    have hgrad0 : cgScenarioState.gradNew 0 = 1 / 2 := by
      rw [hgrad 0]; simp [cgScenarioX]
    have hgrad1 : cgScenarioState.gradNew 1 = 1 := by
      rw [hgrad 1]
      norm_num [cgScenarioX]
    have hll : cgScenarioState.logLikelihood = -Real.log 2 := by
      rw [hstate]
      show (cgInitialize 2).logLikelihood
          - Real.log (1 + Real.exp (-(yOf true) * dotW (cgInitialize 2).widthOfX
              cgScenarioX (cgInitialize 2).coef))
        = -Real.log 2
      rw [hxc]
      simp [cgInitialize, yOf, Real.exp_zero]
      norm_num
    have hn0 : cgScenarioState.numRows ≠ 0 := by decide
    have hit0 : cgScenarioState.iteration = 0 := rfl
    have hfin : Option.map (fun t => (t.dir 0, t.dir 1, t.grad 0, t.grad 1))
        (logregr_cg_step_final cgScenarioState)
        = some (cgScenarioState.gradNew 0, cgScenarioState.gradNew 1,
            cgScenarioState.gradNew 0, cgScenarioState.gradNew 1) := by
      unfold logregr_cg_step_final
      rw [if_neg hn0, if_pos hit0]
      rfl
    refine ⟨hgrad0, hgrad1, hll, ?_⟩
    rw [hfin, hgrad0, hgrad1]

/-- C7 witness: the general description evaluated on the concrete one-row
scenario state (iteration 0, `numRows = 1`). -/
theorem cg_final_update_witness :
    cgScenarioState.numRows ≠ 0 ∧
    ∃ t, logregr_cg_step_final cgScenarioState = some t ∧
      (cgScenarioState.iteration = 0 →
        t.dir = cgScenarioState.gradNew ∧ t.grad = cgScenarioState.gradNew) :=
  ⟨by decide,
   match cg_final_update.1 cgScenarioState (by decide) with
   | ⟨t, h1, h2, _, _, _⟩ => ⟨t, h1, h2⟩⟩

/-! ## Claim C1: the merge algebra

The claim compares, per variant, the fields produced by merging: `numRows`,
the accumulated matrices and vectors, `logLikelihood`, `status` (where the
state has them), and for IGD the coefficient vector.  Each variant gets a
"merge view" collecting exactly those fields. -/

/-- The merge-compared fields of a CG state. -/
structure CGMergeView where
  numRows : ℕ
  gradNew : ℕ → ℝ
  X_transp_AX : ℕ → ℕ → ℝ
  logLikelihood : ℝ
  status : ℕ

/-- Project a CG state to its merge-compared fields. -/
def LogRegrCGTransitionState.view (s : LogRegrCGTransitionState) : CGMergeView :=
  ⟨s.numRows, s.gradNew, s.X_transp_AX, s.logLikelihood, s.status⟩

/-- The merge view of the fresh zero state. -/
def cgZeroView : CGMergeView := ⟨0, fun _ => 0, fun _ _ => 0, 0, IN_PROCESS⟩

/-- Field-wise merge combination: sums plus status maximum, exactly what
`operator+=` does on the compared fields. -/
def CGMergeView.add (a b : CGMergeView) : CGMergeView :=
  ⟨a.numRows + b.numRows, fun i => a.gradNew i + b.gradNew i,
   fun i j => a.X_transp_AX i j + b.X_transp_AX i j,
   a.logLikelihood + b.logLikelihood, max a.status b.status⟩

/-- A valid partial state that has zero rows is the fresh zero state: its
accumulators are zero and its status is IN_PROCESS. -/
def LogRegrCGTransitionState.freshWhenEmpty (s : LogRegrCGTransitionState) : Prop :=
  s.numRows = 0 → s.view = cgZeroView

theorem cgView_zero_add (v : CGMergeView) : CGMergeView.add cgZeroView v = v := by
  cases v
  simp [CGMergeView.add, cgZeroView, IN_PROCESS, CGMergeView.mk.injEq, Nat.zero_max]

theorem cgView_add_zero (v : CGMergeView) : CGMergeView.add v cgZeroView = v := by
  cases v
  simp [CGMergeView.add, cgZeroView, IN_PROCESS, CGMergeView.mk.injEq, Nat.max_zero]

theorem cgView_add_assoc (a b c : CGMergeView) :
    (a.add b).add c = a.add (b.add c) := by
  cases a; cases b; cases c
  simp only [CGMergeView.add, CGMergeView.mk.injEq]
  exact ⟨by omega, funext fun i => by ring, funext fun i => funext fun j => by ring,
    by ring, by omega⟩

theorem cgView_add_right_comm (a b c : CGMergeView) :
    (a.add b).add c = (a.add c).add b := by
  cases a; cases b; cases c
  simp only [CGMergeView.add, CGMergeView.mk.injEq]
  exact ⟨by omega, funext fun i => by ring, funext fun i => funext fun j => by ring,
    by ring, by omega⟩

theorem cg_merge_view (l r : LogRegrCGTransitionState)
    (hl : l.freshWhenEmpty) (hr : r.freshWhenEmpty)
    (hw : l.widthOfX = r.widthOfX) :
    ∃ m, logregr_cg_step_merge_states l r = some m ∧
      m.view = l.view.add r.view ∧ m.widthOfX = l.widthOfX ∧ m.freshWhenEmpty := by
  unfold logregr_cg_step_merge_states
  by_cases h1 : l.numRows = 0
  · rw [if_pos h1]
    exact ⟨r, rfl, by rw [hl h1, cgView_zero_add], hw.symm, hr⟩
  · rw [if_neg h1]
    by_cases h2 : r.numRows = 0
    · rw [if_pos h2]
      exact ⟨l, rfl, by rw [hr h2, cgView_add_zero], rfl, hl⟩
    · rw [if_neg h2, if_pos hw]
      refine ⟨cgPlusEq l r, rfl, rfl, rfl, fun h => ?_⟩
      exact absurd h (by simp [cgPlusEq]; omega)

/-- The three-way merge equality for the CG variant (helper for C1). -/
theorem cgMerge3 : ∀ A B C : LogRegrCGTransitionState,
    A.freshWhenEmpty → B.freshWhenEmpty → C.freshWhenEmpty →
    A.widthOfX = B.widthOfX → A.widthOfX = C.widthOfX →
    (Option.map LogRegrCGTransitionState.view
        ((logregr_cg_step_merge_states A B).bind
          (fun s => logregr_cg_step_merge_states s C))
      = Option.map LogRegrCGTransitionState.view
        ((logregr_cg_step_merge_states B C).bind
          (fun s => logregr_cg_step_merge_states A s))) ∧
    (Option.map LogRegrCGTransitionState.view
        ((logregr_cg_step_merge_states A C).bind
          (fun s => logregr_cg_step_merge_states s B))
      = Option.map LogRegrCGTransitionState.view
        ((logregr_cg_step_merge_states A B).bind
          (fun s => logregr_cg_step_merge_states s C))) := by
  intro A B C hA hB hC hwAB hwAC
  obtain ⟨ab, hab, habv, habw, habf⟩ := cg_merge_view A B hA hB hwAB
  obtain ⟨bc, hbc, hbcv, hbcw, hbcf⟩ := cg_merge_view B C hB hC (by omega)
  obtain ⟨ac, hac, hacv, hacw, hacf⟩ := cg_merge_view A C hA hC hwAC
  obtain ⟨l1, hl1, hl1v, _, _⟩ := cg_merge_view ab C habf hC (by omega)
  obtain ⟨l2, hl2, hl2v, _, _⟩ := cg_merge_view A bc hA hbcf (by omega)
  obtain ⟨l3, hl3, hl3v, _, _⟩ := cg_merge_view ac B hacf hB (by omega)
  rw [hab, hbc, hac]
  simp only [Option.some_bind]
  rw [hl1, hl2, hl3]
  simp only [Option.map_some']
  rw [hl1v, hl2v, hl3v, habv, hbcv, hacv]
  exact ⟨congrArg some (cgView_add_assoc _ _ _),
    congrArg some (cgView_add_right_comm _ _ _)⟩

/-- The merge-compared fields of an IRLS state. -/
structure IRLSMergeView where
  numRows : ℕ
  X_transp_Az : ℕ → ℝ
  X_transp_AX : ℕ → ℕ → ℝ
  logLikelihood : ℝ
  status : ℕ

/-- Project an IRLS state to its merge-compared fields. -/
def LogRegrIRLSTransitionState.view (s : LogRegrIRLSTransitionState) : IRLSMergeView :=
  ⟨s.numRows, s.X_transp_Az, s.X_transp_AX, s.logLikelihood, s.status⟩

/-- The merge view of the fresh zero IRLS state. -/
def irlsZeroView : IRLSMergeView := ⟨0, fun _ => 0, fun _ _ => 0, 0, IN_PROCESS⟩

/-- Field-wise merge combination for IRLS views. -/
def IRLSMergeView.add (a b : IRLSMergeView) : IRLSMergeView :=
  ⟨a.numRows + b.numRows, fun i => a.X_transp_Az i + b.X_transp_Az i,
   fun i j => a.X_transp_AX i j + b.X_transp_AX i j,
   a.logLikelihood + b.logLikelihood, max a.status b.status⟩

/-- A zero-row IRLS state that is fresh. -/
def LogRegrIRLSTransitionState.freshWhenEmpty (s : LogRegrIRLSTransitionState) : Prop :=
  s.numRows = 0 → s.view = irlsZeroView

theorem irlsView_zero_add (v : IRLSMergeView) :
    IRLSMergeView.add irlsZeroView v = v := by
  cases v
  simp [IRLSMergeView.add, irlsZeroView, IN_PROCESS, IRLSMergeView.mk.injEq,
    Nat.zero_max]

theorem irlsView_add_zero (v : IRLSMergeView) :
    IRLSMergeView.add v irlsZeroView = v := by
  cases v
  simp [IRLSMergeView.add, irlsZeroView, IN_PROCESS, IRLSMergeView.mk.injEq,
    Nat.max_zero]

theorem irlsView_add_assoc (a b c : IRLSMergeView) :
    (a.add b).add c = a.add (b.add c) := by
  cases a; cases b; cases c
  simp only [IRLSMergeView.add, IRLSMergeView.mk.injEq]
  exact ⟨by omega, funext fun i => by ring, funext fun i => funext fun j => by ring,
    by ring, by omega⟩

theorem irlsView_add_right_comm (a b c : IRLSMergeView) :
    (a.add b).add c = (a.add c).add b := by
  cases a; cases b; cases c
  simp only [IRLSMergeView.add, IRLSMergeView.mk.injEq]
  exact ⟨by omega, funext fun i => by ring, funext fun i => funext fun j => by ring,
    by ring, by omega⟩

theorem irls_merge_view (l r : LogRegrIRLSTransitionState)
    (hl : l.freshWhenEmpty) (hr : r.freshWhenEmpty)
    (hw : l.widthOfX = r.widthOfX) :
    ∃ m, logregr_irls_step_merge_states l r = some m ∧
      m.view = l.view.add r.view ∧ m.widthOfX = l.widthOfX ∧ m.freshWhenEmpty := by
  unfold logregr_irls_step_merge_states
  by_cases h1 : l.numRows = 0
  · rw [if_pos h1]
    exact ⟨r, rfl, by rw [hl h1, irlsView_zero_add], hw.symm, hr⟩
  · rw [if_neg h1]
    by_cases h2 : r.numRows = 0
    · rw [if_pos h2]
      exact ⟨l, rfl, by rw [hr h2, irlsView_add_zero], rfl, hl⟩
    · rw [if_neg h2, if_pos hw]
      refine ⟨irlsPlusEq l r, rfl, rfl, rfl, fun h => ?_⟩
      exact absurd h (by simp [irlsPlusEq]; omega)

/-- The three-way merge equality for the IRLS variant (helper for C1). -/
theorem irlsMerge3 : ∀ A B C : LogRegrIRLSTransitionState,
    A.freshWhenEmpty → B.freshWhenEmpty → C.freshWhenEmpty →
    A.widthOfX = B.widthOfX → A.widthOfX = C.widthOfX →
    (Option.map LogRegrIRLSTransitionState.view
        ((logregr_irls_step_merge_states A B).bind
          (fun s => logregr_irls_step_merge_states s C))
      = Option.map LogRegrIRLSTransitionState.view
        ((logregr_irls_step_merge_states B C).bind
          (fun s => logregr_irls_step_merge_states A s))) ∧
    (Option.map LogRegrIRLSTransitionState.view
        ((logregr_irls_step_merge_states A C).bind
          (fun s => logregr_irls_step_merge_states s B))
      = Option.map LogRegrIRLSTransitionState.view
        ((logregr_irls_step_merge_states A B).bind
          (fun s => logregr_irls_step_merge_states s C))) := by
  intro A B C hA hB hC hwAB hwAC
  obtain ⟨ab, hab, habv, habw, habf⟩ := irls_merge_view A B hA hB hwAB
  obtain ⟨bc, hbc, hbcv, hbcw, hbcf⟩ := irls_merge_view B C hB hC (by omega)
  obtain ⟨ac, hac, hacv, hacw, hacf⟩ := irls_merge_view A C hA hC hwAC
  obtain ⟨l1, hl1, hl1v, _, _⟩ := irls_merge_view ab C habf hC (by omega)
  obtain ⟨l2, hl2, hl2v, _, _⟩ := irls_merge_view A bc hA hbcf (by omega)
  obtain ⟨l3, hl3, hl3v, _, _⟩ := irls_merge_view ac B hacf hB (by omega)
  rw [hab, hbc, hac]
  simp only [Option.some_bind]
  rw [hl1, hl2, hl3]
  simp only [Option.map_some']
  rw [hl1v, hl2v, hl3v, habv, hbcv, hacv]
  exact ⟨congrArg some (irlsView_add_assoc _ _ _),
    congrArg some (irlsView_add_right_comm _ _ _)⟩

/-- The merge-compared fields of a robust-variance state (it has neither a
status nor a logLikelihood field). -/
structure RobustMergeView where
  numRows : ℕ
  X_transp_AX : ℕ → ℕ → ℝ
  meat : ℕ → ℕ → ℝ

/-- Project a robust state to its merge-compared fields. -/
def RobustLogRegrTransitionState.view (s : RobustLogRegrTransitionState) :
    RobustMergeView :=
  ⟨s.numRows, s.X_transp_AX, s.meat⟩

/-- The merge view of the fresh zero robust state. -/
def robustZeroView : RobustMergeView := ⟨0, fun _ _ => 0, fun _ _ => 0⟩

/-- Field-wise merge combination for robust views. -/
def RobustMergeView.add (a b : RobustMergeView) : RobustMergeView :=
  ⟨a.numRows + b.numRows, fun i j => a.X_transp_AX i j + b.X_transp_AX i j,
   fun i j => a.meat i j + b.meat i j⟩

/-- A zero-row robust state that is fresh. -/
def RobustLogRegrTransitionState.freshWhenEmpty
    (s : RobustLogRegrTransitionState) : Prop :=
  s.numRows = 0 → s.view = robustZeroView

theorem robustView_zero_add (v : RobustMergeView) :
    RobustMergeView.add robustZeroView v = v := by
  cases v
  simp [RobustMergeView.add, robustZeroView, RobustMergeView.mk.injEq]

theorem robustView_add_zero (v : RobustMergeView) :
    RobustMergeView.add v robustZeroView = v := by
  cases v
  simp [RobustMergeView.add, robustZeroView, RobustMergeView.mk.injEq]

theorem robustView_add_assoc (a b c : RobustMergeView) :
    (a.add b).add c = a.add (b.add c) := by
  cases a; cases b; cases c
  simp only [RobustMergeView.add, RobustMergeView.mk.injEq]
  exact ⟨by omega, funext fun i => funext fun j => by ring,
    funext fun i => funext fun j => by ring⟩

theorem robustView_add_right_comm (a b c : RobustMergeView) :
    (a.add b).add c = (a.add c).add b := by
  cases a; cases b; cases c
  simp only [RobustMergeView.add, RobustMergeView.mk.injEq]
  exact ⟨by omega, funext fun i => funext fun j => by ring,
    funext fun i => funext fun j => by ring⟩

theorem robust_merge_view (l r : RobustLogRegrTransitionState)
    (hl : l.freshWhenEmpty) (hr : r.freshWhenEmpty)
    (hw : l.widthOfX = r.widthOfX) :
    ∃ m, robust_logregr_step_merge_states l r = some m ∧
      m.view = l.view.add r.view ∧ m.widthOfX = l.widthOfX ∧ m.freshWhenEmpty := by
  unfold robust_logregr_step_merge_states
  by_cases h1 : l.numRows = 0
  · rw [if_pos h1]
    exact ⟨r, rfl, by rw [hl h1, robustView_zero_add], hw.symm, hr⟩
  · rw [if_neg h1]
    by_cases h2 : r.numRows = 0
    · rw [if_pos h2]
      exact ⟨l, rfl, by rw [hr h2, robustView_add_zero], rfl, hl⟩
    · rw [if_neg h2, if_pos hw]
      refine ⟨robustPlusEq l r, rfl, rfl, rfl, fun h => ?_⟩
      exact absurd h (by simp [robustPlusEq]; omega)

/-- The three-way merge equality for the robust variant (helper for C1). -/
theorem robustMerge3 : ∀ A B C : RobustLogRegrTransitionState,
    A.freshWhenEmpty → B.freshWhenEmpty → C.freshWhenEmpty →
    A.widthOfX = B.widthOfX → A.widthOfX = C.widthOfX →
    (Option.map RobustLogRegrTransitionState.view
        ((robust_logregr_step_merge_states A B).bind
          (fun s => robust_logregr_step_merge_states s C))
      = Option.map RobustLogRegrTransitionState.view
        ((robust_logregr_step_merge_states B C).bind
          (fun s => robust_logregr_step_merge_states A s))) ∧
    (Option.map RobustLogRegrTransitionState.view
        ((robust_logregr_step_merge_states A C).bind
          (fun s => robust_logregr_step_merge_states s B))
      = Option.map RobustLogRegrTransitionState.view
        ((robust_logregr_step_merge_states A B).bind
          (fun s => robust_logregr_step_merge_states s C))) := by
  intro A B C hA hB hC hwAB hwAC
  obtain ⟨ab, hab, habv, habw, habf⟩ := robust_merge_view A B hA hB hwAB
  obtain ⟨bc, hbc, hbcv, hbcw, hbcf⟩ := robust_merge_view B C hB hC (by omega)
  obtain ⟨ac, hac, hacv, hacw, hacf⟩ := robust_merge_view A C hA hC hwAC
  obtain ⟨l1, hl1, hl1v, _, _⟩ := robust_merge_view ab C habf hC (by omega)
  obtain ⟨l2, hl2, hl2v, _, _⟩ := robust_merge_view A bc hA hbcf (by omega)
  obtain ⟨l3, hl3, hl3v, _, _⟩ := robust_merge_view ac B hacf hB (by omega)
  rw [hab, hbc, hac]
  simp only [Option.some_bind]
  rw [hl1, hl2, hl3]
  simp only [Option.map_some']
  rw [hl1v, hl2v, hl3v, habv, hbcv, hacv]
  exact ⟨congrArg some (robustView_add_assoc _ _ _),
    congrArg some (robustView_add_right_comm _ _ _)⟩

/-- The merge-compared fields of a marginal-effects state. -/
structure MarginalMergeView where
  numRows : ℕ
  marginal_effects_per_observation : ℝ
  X_bar : ℕ → ℝ
  X_transp_AX : ℕ → ℕ → ℝ

/-- Project a marginal state to its merge-compared fields. -/
def MarginalLogRegrTransitionState.view (s : MarginalLogRegrTransitionState) :
    MarginalMergeView :=
  ⟨s.numRows, s.marginal_effects_per_observation, s.X_bar, s.X_transp_AX⟩

/-- The merge view of the fresh zero marginal state. -/
def marginalZeroView : MarginalMergeView := ⟨0, 0, fun _ => 0, fun _ _ => 0⟩

/-- Field-wise merge combination for marginal views. -/
def MarginalMergeView.add (a b : MarginalMergeView) : MarginalMergeView :=
  ⟨a.numRows + b.numRows,
   a.marginal_effects_per_observation + b.marginal_effects_per_observation,
   fun i => a.X_bar i + b.X_bar i,
   fun i j => a.X_transp_AX i j + b.X_transp_AX i j⟩

/-- A zero-row marginal state that is fresh. -/
def MarginalLogRegrTransitionState.freshWhenEmpty
    (s : MarginalLogRegrTransitionState) : Prop :=
  s.numRows = 0 → s.view = marginalZeroView

theorem marginalView_zero_add (v : MarginalMergeView) :
    MarginalMergeView.add marginalZeroView v = v := by
  cases v
  simp [MarginalMergeView.add, marginalZeroView, MarginalMergeView.mk.injEq]

theorem marginalView_add_zero (v : MarginalMergeView) :
    MarginalMergeView.add v marginalZeroView = v := by
  cases v
  simp [MarginalMergeView.add, marginalZeroView, MarginalMergeView.mk.injEq]

theorem marginalView_add_assoc (a b c : MarginalMergeView) :
    (a.add b).add c = a.add (b.add c) := by
  cases a; cases b; cases c
  simp only [MarginalMergeView.add, MarginalMergeView.mk.injEq]
  exact ⟨by omega, by ring, funext fun i => by ring,
    funext fun i => funext fun j => by ring⟩

theorem marginalView_add_right_comm (a b c : MarginalMergeView) :
    (a.add b).add c = (a.add c).add b := by
  cases a; cases b; cases c
  simp only [MarginalMergeView.add, MarginalMergeView.mk.injEq]
  exact ⟨by omega, by ring, funext fun i => by ring,
    funext fun i => funext fun j => by ring⟩

theorem marginal_merge_view (l r : MarginalLogRegrTransitionState)
    (hl : l.freshWhenEmpty) (hr : r.freshWhenEmpty)
    (hw : l.widthOfX = r.widthOfX) :
    ∃ m, marginal_logregr_step_merge_states l r = some m ∧
      m.view = l.view.add r.view ∧ m.widthOfX = l.widthOfX ∧ m.freshWhenEmpty := by
  unfold marginal_logregr_step_merge_states
  by_cases h1 : l.numRows = 0
  · rw [if_pos h1]
    exact ⟨r, rfl, by rw [hl h1, marginalView_zero_add], hw.symm, hr⟩
  · rw [if_neg h1]
    by_cases h2 : r.numRows = 0
    · rw [if_pos h2]
      exact ⟨l, rfl, by rw [hr h2, marginalView_add_zero], rfl, hl⟩
    · rw [if_neg h2, if_pos hw]
      refine ⟨marginalPlusEq l r, rfl, rfl, rfl, fun h => ?_⟩
      exact absurd h (by simp [marginalPlusEq]; omega)

/-- The three-way merge equality for the marginal variant (helper for C1). -/
theorem marginalMerge3 : ∀ A B C : MarginalLogRegrTransitionState,
    A.freshWhenEmpty → B.freshWhenEmpty → C.freshWhenEmpty →
    A.widthOfX = B.widthOfX → A.widthOfX = C.widthOfX →
    (Option.map MarginalLogRegrTransitionState.view
        ((marginal_logregr_step_merge_states A B).bind
          (fun s => marginal_logregr_step_merge_states s C))
      = Option.map MarginalLogRegrTransitionState.view
        ((marginal_logregr_step_merge_states B C).bind
          (fun s => marginal_logregr_step_merge_states A s))) ∧
    (Option.map MarginalLogRegrTransitionState.view
        ((marginal_logregr_step_merge_states A C).bind
          (fun s => marginal_logregr_step_merge_states s B))
      = Option.map MarginalLogRegrTransitionState.view
        ((marginal_logregr_step_merge_states A B).bind
          (fun s => marginal_logregr_step_merge_states s C))) := by
  intro A B C hA hB hC hwAB hwAC
  obtain ⟨ab, hab, habv, habw, habf⟩ := marginal_merge_view A B hA hB hwAB
  obtain ⟨bc, hbc, hbcv, hbcw, hbcf⟩ := marginal_merge_view B C hB hC (by omega)
  obtain ⟨ac, hac, hacv, hacw, hacf⟩ := marginal_merge_view A C hA hC hwAC
  obtain ⟨l1, hl1, hl1v, _, _⟩ := marginal_merge_view ab C habf hC (by omega)
  obtain ⟨l2, hl2, hl2v, _, _⟩ := marginal_merge_view A bc hA hbcf (by omega)
  obtain ⟨l3, hl3, hl3v, _, _⟩ := marginal_merge_view ac B hacf hB (by omega)
  rw [hab, hbc, hac]
  simp only [Option.some_bind]
  rw [hl1, hl2, hl3]
  simp only [Option.map_some']
  rw [hl1v, hl2v, hl3v, habv, hbcv, hacv]
  exact ⟨congrArg some (marginalView_add_assoc _ _ _),
    congrArg some (marginalView_add_right_comm _ _ _)⟩

/-- The merge-compared fields of an IGD state; the claim includes the
coefficient vector for this variant. -/
structure IGDMergeView where
  numRows : ℕ
  coef : ℕ → ℝ
  X_transp_AX : ℕ → ℕ → ℝ
  logLikelihood : ℝ
  status : ℕ

/-- Project an IGD state to its merge-compared fields. -/
def LogRegrIGDTransitionState.view (s : LogRegrIGDTransitionState) : IGDMergeView :=
  ⟨s.numRows, s.coef, s.X_transp_AX, s.logLikelihood, s.status⟩

/-- The merge view of the fresh zero IGD state. -/
def igdZeroView : IGDMergeView := ⟨0, fun _ => 0, fun _ _ => 0, 0, IN_PROCESS⟩

/-- Merge combination of IGD views: row-count-weighted coefficient average,
sums elsewhere, and the asymmetric status policy of `operator+=` (take the
right status only when it is TERMINATED). -/
noncomputable def IGDMergeView.add (a b : IGDMergeView) : IGDMergeView :=
  ⟨a.numRows + b.numRows,
   fun i => ((a.numRows : ℝ) * a.coef i + (b.numRows : ℝ) * b.coef i)
     / ((a.numRows : ℝ) + (b.numRows : ℝ)),
   fun i j => a.X_transp_AX i j + b.X_transp_AX i j,
   a.logLikelihood + b.logLikelihood,
   if b.status = TERMINATED then b.status else a.status⟩

/-- A zero-row IGD state that is fresh (zero coefficients included). -/
def LogRegrIGDTransitionState.freshWhenEmpty (s : LogRegrIGDTransitionState) : Prop :=
  s.numRows = 0 → s.view = igdZeroView

/-- The status is one of the two values the source ever assigns: the
COMPLETED value never occurs. -/
def LogRegrIGDTransitionState.statusKnown (s : LogRegrIGDTransitionState) : Prop :=
  s.status = IN_PROCESS ∨ s.status = TERMINATED

theorem igdView_zero_add (v : IGDMergeView) (hn : v.numRows ≠ 0)
    (hs : v.status = IN_PROCESS ∨ v.status = TERMINATED) :
    IGDMergeView.add igdZeroView v = v := by
  cases v with
  | mk n c X ll st =>
    have hnr : (n : ℝ) ≠ 0 := Nat.cast_ne_zero.mpr hn
    simp only [IGDMergeView.add, igdZeroView, IGDMergeView.mk.injEq]
    refine ⟨?_, ?_, ?_, ?_, ?_⟩
    · first | trivial | omega
    · refine funext fun i => ?_
      push_cast
      rw [show (0 : ℝ) * 0 + (n : ℝ) * c i = (n : ℝ) * c i by ring,
        show (0 : ℝ) + (n : ℝ) = (n : ℝ) by ring,
        mul_div_cancel_left₀ _ hnr]
    · first | trivial | exact funext fun i => funext fun j => by ring
    · first | trivial | ring1
    · rcases hs with h | h
      · have hst : st = IN_PROCESS := h
        rw [hst]
        simp [IN_PROCESS, TERMINATED]
      · have hst : st = TERMINATED := h
        rw [hst]
        simp

theorem igdView_add_zero (v : IGDMergeView) (hn : v.numRows ≠ 0) :
    IGDMergeView.add v igdZeroView = v := by
  cases v with
  | mk n c X ll st =>
    have hnr : (n : ℝ) ≠ 0 := Nat.cast_ne_zero.mpr hn
    simp only [IGDMergeView.add, igdZeroView, IGDMergeView.mk.injEq]
    refine ⟨?_, ?_, ?_, ?_, ?_⟩
    · first | trivial | omega
    · refine funext fun i => ?_
      push_cast
      rw [show (n : ℝ) * c i + 0 * 0 = (n : ℝ) * c i by ring,
        show (n : ℝ) + 0 = (n : ℝ) by ring,
        mul_div_cancel_left₀ _ hnr]
    · first | trivial | exact funext fun i => funext fun j => by ring
    · first | trivial | ring1
    · first | trivial | simp [IN_PROCESS, TERMINATED]

theorem igdView_zero_add_zero :
    IGDMergeView.add igdZeroView igdZeroView = igdZeroView := by
  simp [IGDMergeView.add, igdZeroView, IN_PROCESS, TERMINATED]

theorem igd_merge_view (l r : LogRegrIGDTransitionState)
    (hl : l.freshWhenEmpty) (hr : r.freshWhenEmpty)
    (hls : l.statusKnown) (hrs : r.statusKnown)
    (hw : l.widthOfX = r.widthOfX) :
    ∃ m, logregr_igd_step_merge_states l r = some m ∧
      m.view = l.view.add r.view ∧ m.widthOfX = l.widthOfX ∧
      m.freshWhenEmpty ∧ m.statusKnown := by
  unfold logregr_igd_step_merge_states
  by_cases h1 : l.numRows = 0
  · rw [if_pos h1]
    refine ⟨r, rfl, ?_, hw.symm, hr, hrs⟩
    rw [hl h1]
    by_cases h2 : r.numRows = 0
    · rw [hr h2, igdView_zero_add_zero]
    · exact (igdView_zero_add r.view h2 hrs).symm
  · rw [if_neg h1]
    by_cases h2 : r.numRows = 0
    · rw [if_pos h2]
      refine ⟨l, rfl, ?_, rfl, hl, hls⟩
      rw [hr h2]
      exact (igdView_add_zero l.view h1).symm
    · rw [if_neg h2, if_pos hw]
      refine ⟨igdPlusEq l r, rfl, ?_, rfl,
        fun h => absurd h (by simp [igdPlusEq]; omega), ?_⟩
      · simp only [LogRegrIGDTransitionState.view, igdPlusEq, IGDMergeView.add,
          IGDMergeView.mk.injEq]
        refine ⟨?_, ?_, ?_, ?_, ?_⟩ <;>
          first
          | trivial
          | exact funext fun i => by ring
          | exact funext fun i => funext fun j => by ring
          | ring1
      · show (igdPlusEq l r).status = IN_PROCESS ∨ (igdPlusEq l r).status = TERMINATED
        rcases hrs with h | h
        · have hst : (igdPlusEq l r).status = l.status := by
            simp [igdPlusEq, h, IN_PROCESS, TERMINATED]
          rw [hst]
          exact hls
        · have hst : (igdPlusEq l r).status = TERMINATED := by
            simp [igdPlusEq, h]
          exact Or.inr hst

/-- The flattened three-way IGD merge view. -/
noncomputable def igdFlat3 (a b c : IGDMergeView) : IGDMergeView :=
  ⟨a.numRows + b.numRows + c.numRows,
   fun i => ((a.numRows : ℝ) * a.coef i + (b.numRows : ℝ) * b.coef i
       + (c.numRows : ℝ) * c.coef i)
     / ((a.numRows : ℝ) + (b.numRows : ℝ) + (c.numRows : ℝ)),
   fun i j => a.X_transp_AX i j + b.X_transp_AX i j + c.X_transp_AX i j,
   a.logLikelihood + b.logLikelihood + c.logLikelihood,
   if b.status = TERMINATED ∨ c.status = TERMINATED then TERMINATED else a.status⟩

theorem weighted_merge_flat (na nb nc : ℕ) (ca cb cc : ℝ) :
    (((na + nb : ℕ) : ℝ) * (((na : ℝ) * ca + (nb : ℝ) * cb)
        / ((na : ℝ) + (nb : ℝ))) + (nc : ℝ) * cc)
      / (((na + nb : ℕ) : ℝ) + (nc : ℝ))
    = ((na : ℝ) * ca + (nb : ℝ) * cb + (nc : ℝ) * cc)
      / ((na : ℝ) + (nb : ℝ) + (nc : ℝ)) := by
  by_cases h : na + nb = 0
  · obtain ⟨h1, h2⟩ := Nat.add_eq_zero.mp h
    subst h1; subst h2
    push_cast
    simp
  · have hc : (na : ℝ) + (nb : ℝ) ≠ 0 := by
      have h2 : ((na + nb : ℕ) : ℝ) ≠ 0 := Nat.cast_ne_zero.mpr h
      push_cast at h2
      exact h2
    push_cast
    rw [← mul_div_assoc, mul_div_cancel_left₀ _ hc]

theorem weighted_merge_flat_r (na nb nc : ℕ) (ca cb cc : ℝ) :
    ((na : ℝ) * ca + ((nb + nc : ℕ) : ℝ) * (((nb : ℝ) * cb + (nc : ℝ) * cc)
        / ((nb : ℝ) + (nc : ℝ))))
      / ((na : ℝ) + ((nb + nc : ℕ) : ℝ))
    = ((na : ℝ) * ca + (nb : ℝ) * cb + (nc : ℝ) * cc)
      / ((na : ℝ) + (nb : ℝ) + (nc : ℝ)) := by
  by_cases h : nb + nc = 0
  · obtain ⟨h1, h2⟩ := Nat.add_eq_zero.mp h
    subst h1; subst h2
    push_cast
    simp
  · have hc : (nb : ℝ) + (nc : ℝ) ≠ 0 := by
      have h2 : ((nb + nc : ℕ) : ℝ) ≠ 0 := Nat.cast_ne_zero.mpr h
      push_cast at h2
      exact h2
    push_cast
    rw [← mul_div_assoc, mul_div_cancel_left₀ _ hc]
    ring

theorem IGDMergeView.add3_left (a b c : IGDMergeView) :
    (a.add b).add c = igdFlat3 a b c := by
  simp only [IGDMergeView.add, igdFlat3, IGDMergeView.mk.injEq]
  refine ⟨?_, ?_, ?_, ?_, ?_⟩ <;>
    first
    | trivial
    | omega
    | exact funext fun i => weighted_merge_flat a.numRows b.numRows c.numRows
        (a.coef i) (b.coef i) (c.coef i)
    | exact funext fun i => funext fun j => by ring
    | ring1
    | (by_cases hbs : b.status = TERMINATED <;>
        by_cases hcs : c.status = TERMINATED <;> simp [hbs, hcs])

theorem IGDMergeView.add3_right (a b c : IGDMergeView) :
    a.add (b.add c) = igdFlat3 a b c := by
  simp only [IGDMergeView.add, igdFlat3, IGDMergeView.mk.injEq]
  refine ⟨?_, ?_, ?_, ?_, ?_⟩ <;>
    first
    | trivial
    | omega
    | exact funext fun i => weighted_merge_flat_r a.numRows b.numRows c.numRows
        (a.coef i) (b.coef i) (c.coef i)
    | exact funext fun i => funext fun j => by ring
    | ring1
    | (by_cases hbs : b.status = TERMINATED <;>
        by_cases hcs : c.status = TERMINATED <;> simp [hbs, hcs])

theorem IGDMergeView.add3_swap (a b c : IGDMergeView) :
    (a.add c).add b = igdFlat3 a b c := by
  simp only [IGDMergeView.add, igdFlat3, IGDMergeView.mk.injEq]
  refine ⟨?_, ?_, ?_, ?_, ?_⟩ <;>
    first
    | trivial
    | omega
    | exact funext fun i => by
        rw [weighted_merge_flat a.numRows c.numRows b.numRows
          (a.coef i) (c.coef i) (b.coef i)]
        ring
    | exact funext fun i => funext fun j => by ring
    | ring1
    | (by_cases hbs : b.status = TERMINATED <;>
        by_cases hcs : c.status = TERMINATED <;> simp [hbs, hcs])

/-- The three-way merge equality for the IGD variant (helper for C1). -/
theorem igdMerge3 : ∀ A B C : LogRegrIGDTransitionState,
    A.freshWhenEmpty → B.freshWhenEmpty → C.freshWhenEmpty →
    A.statusKnown → B.statusKnown → C.statusKnown →
    A.widthOfX = B.widthOfX → A.widthOfX = C.widthOfX →
    (Option.map LogRegrIGDTransitionState.view
        ((logregr_igd_step_merge_states A B).bind
          (fun s => logregr_igd_step_merge_states s C))
      = Option.map LogRegrIGDTransitionState.view
        ((logregr_igd_step_merge_states B C).bind
          (fun s => logregr_igd_step_merge_states A s))) ∧
    (Option.map LogRegrIGDTransitionState.view
        ((logregr_igd_step_merge_states A C).bind
          (fun s => logregr_igd_step_merge_states s B))
      = Option.map LogRegrIGDTransitionState.view
        ((logregr_igd_step_merge_states A B).bind
          (fun s => logregr_igd_step_merge_states s C))) := by
  intro A B C hA hB hC hAs hBs hCs hwAB hwAC
  obtain ⟨ab, hab, habv, habw, habf, habs⟩ := igd_merge_view A B hA hB hAs hBs hwAB
  obtain ⟨bc, hbc, hbcv, hbcw, hbcf, hbcs⟩ := igd_merge_view B C hB hC hBs hCs (by omega)
  obtain ⟨ac, hac, hacv, hacw, hacf, hacs⟩ := igd_merge_view A C hA hC hAs hCs hwAC
  obtain ⟨l1, hl1, hl1v, _, _, _⟩ := igd_merge_view ab C habf hC habs hCs (by omega)
  obtain ⟨l2, hl2, hl2v, _, _, _⟩ := igd_merge_view A bc hA hbcf hAs hbcs (by omega)
  obtain ⟨l3, hl3, hl3v, _, _, _⟩ := igd_merge_view ac B hacf hB hacs hBs (by omega)
  rw [hab, hbc, hac]
  simp only [Option.some_bind]
  rw [hl1, hl2, hl3]
  simp only [Option.map_some']
  rw [hl1v, hl2v, hl3v, habv, hbcv, hacv, IGDMergeView.add3_left,
    IGDMergeView.add3_right, IGDMergeView.add3_swap]
  exact ⟨rfl, rfl⟩

/-- C1 (amended).  For every variant, for any three states of equal
`widthOfX` whose zero-row members are the fresh all-zero state (and, for
the IGD variant, whose status is one of the two values the code ever
assigns, IN_PROCESS or TERMINATED — COMPLETED is never assigned), the three
merge groupings `merge(merge(A,B),C)`, `merge(A,merge(B,C))` and
`merge(merge(A,C),B)` agree on every merge-compared field: `numRows`, the
accumulated matrices and vectors, `logLikelihood`, `status` where the state
has one, and for IGD the coefficient vector.  Without the fresh-zero-state
proviso the equality fails on the status field, because the zero-row
short-circuit drops a TERMINATED status produced by the overflow guard. -/
theorem merge_commutative_associative :
    (∀ A B C : LogRegrCGTransitionState,
      A.freshWhenEmpty → B.freshWhenEmpty → C.freshWhenEmpty →
      A.widthOfX = B.widthOfX → A.widthOfX = C.widthOfX →
      (Option.map LogRegrCGTransitionState.view
          ((logregr_cg_step_merge_states A B).bind
            (fun s => logregr_cg_step_merge_states s C))
        = Option.map LogRegrCGTransitionState.view
          ((logregr_cg_step_merge_states B C).bind
            (fun s => logregr_cg_step_merge_states A s))) ∧
      (Option.map LogRegrCGTransitionState.view
          ((logregr_cg_step_merge_states A C).bind
            (fun s => logregr_cg_step_merge_states s B))
        = Option.map LogRegrCGTransitionState.view
          ((logregr_cg_step_merge_states A B).bind
            (fun s => logregr_cg_step_merge_states s C)))) ∧
    (∀ A B C : LogRegrIRLSTransitionState,
      A.freshWhenEmpty → B.freshWhenEmpty → C.freshWhenEmpty →
      A.widthOfX = B.widthOfX → A.widthOfX = C.widthOfX →
      (Option.map LogRegrIRLSTransitionState.view
          ((logregr_irls_step_merge_states A B).bind
            (fun s => logregr_irls_step_merge_states s C))
        = Option.map LogRegrIRLSTransitionState.view
          ((logregr_irls_step_merge_states B C).bind
            (fun s => logregr_irls_step_merge_states A s))) ∧
      (Option.map LogRegrIRLSTransitionState.view
          ((logregr_irls_step_merge_states A C).bind
            (fun s => logregr_irls_step_merge_states s B))
        = Option.map LogRegrIRLSTransitionState.view
          ((logregr_irls_step_merge_states A B).bind
            (fun s => logregr_irls_step_merge_states s C)))) ∧
    (∀ A B C : LogRegrIGDTransitionState,
      A.freshWhenEmpty → B.freshWhenEmpty → C.freshWhenEmpty →
      A.statusKnown → B.statusKnown → C.statusKnown →
      A.widthOfX = B.widthOfX → A.widthOfX = C.widthOfX →
      (Option.map LogRegrIGDTransitionState.view
          ((logregr_igd_step_merge_states A B).bind
            (fun s => logregr_igd_step_merge_states s C))
        = Option.map LogRegrIGDTransitionState.view
          ((logregr_igd_step_merge_states B C).bind
            (fun s => logregr_igd_step_merge_states A s))) ∧
      (Option.map LogRegrIGDTransitionState.view
          ((logregr_igd_step_merge_states A C).bind
            (fun s => logregr_igd_step_merge_states s B))
        = Option.map LogRegrIGDTransitionState.view
          ((logregr_igd_step_merge_states A B).bind
            (fun s => logregr_igd_step_merge_states s C)))) ∧
    (∀ A B C : RobustLogRegrTransitionState,
      A.freshWhenEmpty → B.freshWhenEmpty → C.freshWhenEmpty →
      A.widthOfX = B.widthOfX → A.widthOfX = C.widthOfX →
      (Option.map RobustLogRegrTransitionState.view
          ((robust_logregr_step_merge_states A B).bind
            (fun s => robust_logregr_step_merge_states s C))
        = Option.map RobustLogRegrTransitionState.view
          ((robust_logregr_step_merge_states B C).bind
            (fun s => robust_logregr_step_merge_states A s))) ∧
      (Option.map RobustLogRegrTransitionState.view
          ((robust_logregr_step_merge_states A C).bind
            (fun s => robust_logregr_step_merge_states s B))
        = Option.map RobustLogRegrTransitionState.view
          ((robust_logregr_step_merge_states A B).bind
            (fun s => robust_logregr_step_merge_states s C)))) ∧
    (∀ A B C : MarginalLogRegrTransitionState,
      A.freshWhenEmpty → B.freshWhenEmpty → C.freshWhenEmpty →
      A.widthOfX = B.widthOfX → A.widthOfX = C.widthOfX →
      (Option.map MarginalLogRegrTransitionState.view
          ((marginal_logregr_step_merge_states A B).bind
            (fun s => marginal_logregr_step_merge_states s C))
        = Option.map MarginalLogRegrTransitionState.view
          ((marginal_logregr_step_merge_states B C).bind
            (fun s => marginal_logregr_step_merge_states A s))) ∧
      (Option.map MarginalLogRegrTransitionState.view
          ((marginal_logregr_step_merge_states A C).bind
            (fun s => marginal_logregr_step_merge_states s B))
        = Option.map MarginalLogRegrTransitionState.view
          ((marginal_logregr_step_merge_states A B).bind
            (fun s => marginal_logregr_step_merge_states s C)))) :=
  ⟨cgMerge3, irlsMerge3, igdMerge3, robustMerge3, marginalMerge3⟩

/-- C1 counterexample.  With `A = B` the fresh zero state and `C` the
TERMINATED zero-row state produced by the overflow guard (all three valid,
reachable, of equal widthOfX 0), `merge(merge(A,B),C)` has status
TERMINATED while `merge(merge(A,C),B)` has status IN_PROCESS: the claimed
field-wise equality of the merge groupings fails on the status field. -/
theorem merge_commutative_associative_cex :
    Option.map LogRegrCGTransitionState.status
        ((logregr_cg_step_merge_states cgInitialState cgInitialState).bind
          (fun s => logregr_cg_step_merge_states s cgTerminatedEmptyState))
      = some TERMINATED ∧
    Option.map LogRegrCGTransitionState.status
        ((logregr_cg_step_merge_states cgInitialState cgTerminatedEmptyState).bind
          (fun s => logregr_cg_step_merge_states s cgInitialState))
      = some IN_PROCESS ∧
    TERMINATED ≠ IN_PROCESS :=
  ⟨rfl, rfl, by decide⟩

/-- C1 witness: the amended statement evaluated on concrete fresh states
for the CG and IGD variants. -/
theorem merge_commutative_associative_witness :
    cgInitialState.freshWhenEmpty ∧ igdInitialState.statusKnown ∧
    (Option.map LogRegrCGTransitionState.view
        ((logregr_cg_step_merge_states cgInitialState cgInitialState).bind
          (fun s => logregr_cg_step_merge_states s cgInitialState))
      = Option.map LogRegrCGTransitionState.view
        ((logregr_cg_step_merge_states cgInitialState cgInitialState).bind
          (fun s => logregr_cg_step_merge_states cgInitialState s))) ∧
    (Option.map LogRegrIGDTransitionState.view
        ((logregr_igd_step_merge_states igdInitialState igdInitialState).bind
          (fun s => logregr_igd_step_merge_states s igdInitialState))
      = Option.map LogRegrIGDTransitionState.view
        ((logregr_igd_step_merge_states igdInitialState igdInitialState).bind
          (fun s => logregr_igd_step_merge_states igdInitialState s))) :=
  ⟨fun _ => rfl, Or.inl rfl,
   (merge_commutative_associative.1 cgInitialState cgInitialState cgInitialState
     (fun _ => rfl) (fun _ => rfl) (fun _ => rfl) rfl rfl).1,
   (merge_commutative_associative.2.2.1 igdInitialState igdInitialState
     igdInitialState (fun _ => rfl) (fun _ => rfl) (fun _ => rfl)
     (Or.inl rfl) (Or.inl rfl) (Or.inl rfl) rfl rfl).1⟩

end Logistic
